import Mathlib

/-!
Shallow embedding of the `bevy_voxel_world` voxel engine core, written from the
repository sources, together with theorems settling the frozen claims C1..C10.

Modelling conventions:

* `i32` / `u32` values are modelled as `ℤ` / `ℕ` (no claim exercises wrap-around).
* `f32` values are modelled as exact rationals `ℚ`; where the source can produce
  IEEE infinities (reciprocal of a zero ray component) an explicit extended type
  `XRat` with an `inf` point is used.  Every concrete input used in a
  counterexample or witness below is chosen so that the `f32` computation of the
  source is exact (dyadic values, exact square roots), hence agrees with the
  rational model.
* `HashMap` / `HashSet` snapshots read under a lock are modelled as functions
  `IVec3 → Option _`, association lists, or `Finset`s; buffered mutation is
  modelled by explicit state passing.
* hash values (`DefaultHasher` output) and ECS `Entity` ids are irrelevant to
  every claim and are left out of the chunk-data model.
-/

/-- Integer 3-vector, the model of `bevy::math::IVec3`. -/
structure IVec3 where
  x : ℤ
  y : ℤ
  z : ℤ
deriving DecidableEq

/-- Unsigned 3-vector, the model of `bevy::math::UVec3`. -/
structure UVec3 where
  x : ℕ
  y : ℕ
  z : ℕ
deriving DecidableEq

/-- Rational 3-vector, the exact model of `bevy::math::Vec3` (`f32` components). -/
structure Vec3 where
  x : ℚ
  y : ℚ
  z : ℚ
deriving DecidableEq

def IVec3.add (a b : IVec3) : IVec3 := ⟨a.x + b.x, a.y + b.y, a.z + b.z⟩

def IVec3.sub (a b : IVec3) : IVec3 := ⟨a.x - b.x, a.y - b.y, a.z - b.z⟩

/-- Model of `IVec3::distance_squared` (exact in `i32` for all claim-relevant inputs). -/
def IVec3.distance_squared (a b : IVec3) : ℤ :=
  (a.x - b.x) ^ 2 + (a.y - b.y) ^ 2 + (a.z - b.z) ^ 2

def Vec3.sub (a b : Vec3) : Vec3 := ⟨a.x - b.x, a.y - b.y, a.z - b.z⟩

/-- Componentwise division of a `Vec3` by a scalar, the model of `Vec3 / f32`. -/
def Vec3.divScalar (a : Vec3) (q : ℚ) : Vec3 := ⟨a.x / q, a.y / q, a.z / q⟩

/-- Dot product of a vector with itself; `ray.length()` of the source satisfies
`length * length = dotSelf` whenever the `f32` square root is exact. -/
def Vec3.dotSelf (a : Vec3) : ℚ := a.x * a.x + a.y * a.y + a.z * a.z

/-- Voxel value: `Unset` (never generated), `Air`, or `Solid(material)`.
Model of `WorldVoxel` from `voxel.rs`; the material index type is modelled as `ℕ`. -/
inductive WorldVoxel where
  | Unset
  | Air
  | Solid (material : ℕ)
deriving DecidableEq

/-- Model of `WorldVoxel::is_unset`. -/
def WorldVoxel.is_unset : WorldVoxel → Bool
  | .Unset => true
  | _ => false

/-- Model of `WorldVoxel::is_air`. -/
def WorldVoxel.is_air : WorldVoxel → Bool
  | .Air => true
  | _ => false

/-- Model of `WorldVoxel::is_solid`. -/
def WorldVoxel.is_solid : WorldVoxel → Bool
  | .Solid _ => true
  | _ => false

/-- The material stored in a solid voxel, if any. -/
def WorldVoxel.material? : WorldVoxel → Option ℕ
  | .Solid m => some m
  | _ => none

/-- Voxel face labels, model of `VoxelFace` from `voxel.rs`. -/
inductive VoxelFace where
  | None
  | Bottom
  | Top
  | Left
  | Right
  | Back
  | Forward
deriving DecidableEq

/-- Chunk edge length in voxels (`CHUNK_SIZE_U = 32` in `chunk.rs`). -/
def CHUNK_SIZE : ℕ := 32

/-- Padded chunk edge (`PADDED_CHUNK_SIZE = CHUNK_SIZE + 2`). -/
def PADDED_CHUNK_SIZE : ℕ := CHUNK_SIZE + 2

/-- Row-major linear index of `ndshape`'s 3-d shapes: strides are
`[1, sx, sx*sy]`, so `x` varies fastest.  Model of `Shape::linearize`. -/
def Shape.linearize (s : UVec3) (p : UVec3) : ℕ :=
  p.x + s.x * p.y + s.x * s.y * p.z

/-- Inverse of `Shape.linearize`, model of `Shape::delinearize`: first the `z`
slice is split off using the stride `sx*sy`, then `y` with stride `sx`. -/
def Shape.delinearize (s : UVec3) (i : ℕ) : UVec3 :=
  let zc := i / (s.x * s.y)
  let r := i % (s.x * s.y)
  ⟨r % s.x, r / s.x, zc⟩

/-- Total number of cells of a shape (`Shape::size`). -/
def Shape.size (s : UVec3) : ℕ := s.x * s.y * s.z

/-- Floor of a rational, as the source's `f32::floor` cast to an integer.
Defined directly on the `Rat` representation so that it evaluates by `decide`. -/
def ratFloor (q : ℚ) : ℤ := q.num / (q.den : ℤ)

/-- Ceiling of a rational (`f32::ceil`). -/
def ratCeil (q : ℚ) : ℤ := -ratFloor (-q)

/-- Truncation toward zero, the semantics of Rust's `as i32` cast from `f32`. -/
def ratTrunc (q : ℚ) : ℤ := if 0 ≤ q then ratFloor q else ratCeil q

/-- Rounding half away from zero, the semantics of Rust's `f32::round`. -/
def ratRound (q : ℚ) : ℤ := if 0 ≤ q then ratFloor (q + 1/2) else ratCeil (q - 1/2)

theorem ratFloor_eq_floor (q : ℚ) : ratFloor q = Int.floor q := by
  rw [ratFloor, Rat.floor_def]

theorem ratCeil_eq_ceil (q : ℚ) : ratCeil q = Int.ceil q := by
  rw [ratCeil, ratFloor_eq_floor, Int.floor_neg, neg_neg]

/-- Inner (non-padding) extent of a padded dimension, with the saturating
arithmetic of the source: `(e.saturating_sub(2)).max(1)`.  `ℕ` subtraction is
already saturating. -/
def innerDim (e : ℕ) : ℕ := max (e - 2) 1

/-- Model of `voxel_size_from_shape` (`chunk.rs` / `meshing.rs`): the world-space
edge length of one data cell, per axis. -/
def voxel_size_from_shape (s : UVec3) : Vec3 :=
  ⟨(CHUNK_SIZE : ℚ) / (innerDim s.x : ℚ),
   (CHUNK_SIZE : ℚ) / (innerDim s.y : ℚ),
   (CHUNK_SIZE : ℚ) / (innerDim s.z : ℚ)⟩

namespace VW0

/-!
Model of the legacy `voxel_world.rs` (`VoxelWorld::set_voxel` lines 148-177 and
`VoxelWorld::get_voxel_fn` lines 39-73), the code cited by claim C1.
-/

/-- Model of the `Chunk` component of `voxel_world.rs`: a padded 34³ voxel
array keyed by chunk position.  The `entity` id is irrelevant to lookups. -/
structure Chunk where
  position : IVec3
  voxels : List WorldVoxel
  entity : ℕ

/-- Model of `Chunk::get_voxel` (`voxel_world.rs` lines 477-480):
`self.voxels.get(PaddedChunkShape::linearize(position))`. -/
def Chunk.get_voxel (c : Chunk) (p : UVec3) : Option WorldVoxel :=
  c.voxels.get? (Shape.linearize ⟨PADDED_CHUNK_SIZE, PADDED_CHUNK_SIZE, PADDED_CHUNK_SIZE⟩ p)

/-- Model of `get_chunk_voxel_position` (`voxel_world.rs` lines 546-556):
the chunk position is the floored division of each component by the chunk
size (computed through `f32`, exact for all `i32` inputs of interest), and the
in-chunk voxel position is the remainder shifted by one unit of padding. -/
def get_chunk_voxel_position (position : IVec3) : IVec3 × UVec3 :=
  let chunk_position : IVec3 :=
    ⟨ratFloor ((position.x : ℚ) / (CHUNK_SIZE : ℚ)),
     ratFloor ((position.y : ℚ) / (CHUNK_SIZE : ℚ)),
     ratFloor ((position.z : ℚ) / (CHUNK_SIZE : ℚ))⟩
  let voxel_position : UVec3 :=
    ⟨(position.x - chunk_position.x * (CHUNK_SIZE : ℤ)).toNat + 1,
     (position.y - chunk_position.y * (CHUNK_SIZE : ℤ)).toNat + 1,
     (position.z - chunk_position.z * (CHUNK_SIZE : ℤ)).toNat + 1⟩
  (chunk_position, voxel_position)

/-- State visible to `VoxelWorld`: the `ModifiedVoxels` map, the snapshot of
`Chunk` components taken by `get_voxel_fn` (keyed by chunk position), and the
`ChunkMap` from position to entity id.  ECS `Commands` issued by `set_voxel`
are deferred and do not alter the `chunks` query snapshot within the tick. -/
structure WorldState where
  modified_voxels : IVec3 → Option WorldVoxel
  chunks : IVec3 → Option Chunk
  chunk_map : IVec3 → Option ℕ

/-- Model of `VoxelWorld::set_voxel`: the voxel is inserted into
`modified_voxels` first; the chunk map gains an entry for the containing chunk
when none exists (the freshly spawned entity id is represented by `0`).
The `NeedsRemesh` tagging has no effect on voxel lookups. -/
def set_voxel (st : WorldState) (position : IVec3) (voxel : WorldVoxel) : WorldState :=
  let chunk_pos := (get_chunk_voxel_position position).1
  { st with
    modified_voxels := fun p => if p = position then some voxel else st.modified_voxels p,
    chunk_map := fun p =>
      if (st.chunk_map chunk_pos).isSome then st.chunk_map p
      else if p = chunk_pos then some 0 else st.chunk_map p }

/-- Model of the closure returned by `VoxelWorld::get_voxel_fn`: the
`modified_voxels` map is consulted first; otherwise the chunk snapshot is
indexed and a missing chunk or voxel yields `Unset`. -/
def get_voxel (st : WorldState) (position : IVec3) : WorldVoxel :=
  let cv := get_chunk_voxel_position position
  match st.modified_voxels position with
  | some v => v
  | none => (((st.chunks cv.1).bind (fun c => c.get_voxel cv.2)).getD .Unset)

end VW0

/-- Claim C1: for every voxel coordinate P and voxel value V, `set_voxel(P, V)`
followed by `get_voxel(P)` within the same tick (before any flush) returns V:
the write goes through the `ModifiedVoxels` map, which the read consults first. -/
theorem C1_set_then_get_returns_value (st : VW0.WorldState) (p : IVec3) (v : WorldVoxel) :
    VW0.get_voxel (VW0.set_voxel st p v) p = v := by
  simp [VW0.get_voxel, VW0.set_voxel]

namespace Core

/-!
Model of the modern `chunk.rs`: `ChunkData`, its voxel accessors, and
`ChunkTask::generate` (the code cited by claims C2, C4 and C9).
-/

/-- Model of `ChunkRegenerateStrategy` from `configuration.rs`. -/
inductive ChunkRegenerateStrategy where
  | Reuse
  | Repopulate
deriving DecidableEq

/-- Model of `FillType` from `chunk.rs`. -/
inductive FillType where
  | Empty
  | Mixed
  | Uniform (v : WorldVoxel)
deriving DecidableEq

/-- Model of `ChunkData`.  The `voxels_hash` (an opaque `DefaultHasher` output)
and the ECS `entity` id play no role in any claim and are omitted. -/
structure ChunkData where
  position : IVec3
  lod_level : ℕ
  voxels : Option (List WorldVoxel)
  is_full : Bool
  is_empty : Bool
  fill_type : FillType
  has_generated : Bool
  data_shape : UVec3
  mesh_shape : UVec3
deriving DecidableEq

/-- Model of `ChunkData::new`. -/
def ChunkData.new : ChunkData :=
  { position := ⟨0, 0, 0⟩
    lod_level := 0
    voxels := none
    is_full := false
    is_empty := true
    fill_type := .Empty
    has_generated := false
    data_shape := ⟨PADDED_CHUNK_SIZE, PADDED_CHUNK_SIZE, PADDED_CHUNK_SIZE⟩
    mesh_shape := ⟨PADDED_CHUNK_SIZE, PADDED_CHUNK_SIZE, PADDED_CHUNK_SIZE⟩ }

/-- Model of `ChunkData::get_voxel`: dense indexing into `data_shape` when the
array is present, otherwise the fill type decides.  The `Mixed`-without-array
case is `unreachable!()` in the source (the classification in `generate` always
materialises the array for `Mixed`); the total model returns `Unset` there. -/
def ChunkData.get_voxel (cd : ChunkData) (position : UVec3) : WorldVoxel :=
  match cd.voxels with
  | some vs => vs.getD (Shape.linearize cd.data_shape position) .Unset
  | none =>
    match cd.fill_type with
    | .Uniform v => v
    | .Empty => .Unset
    | .Mixed => .Unset

/-- Model of the `to_index` closure of `ChunkData::get_voxel_at_world_position`
(`chunk.rs` lines 165-190): `f32::EPSILON` is `2⁻²³`; `raw.ceil()` is the cell
index candidate; the candidate must be inside `[0, max)` and must reconstruct
the exact component through the truncating `as i32` cast. -/
def to_index (component : ℤ) (scale : ℚ) (maxDim : ℕ) : Option ℕ :=
  if scale ≤ 1 / 2 ^ 23 ∨ maxDim = 0 then none
  else
    let chunk_block := ratCeil (((component : ℚ) + 1) / scale)
    if chunk_block < 0 then none
    else if chunk_block < 0 ∨ (maxDim : ℤ) ≤ chunk_block then none
    else
      let reconstructed := ratTrunc (((chunk_block : ℚ) - 1) * scale)
      if reconstructed ≠ component then none
      else some chunk_block.toNat

/-- Model of `ChunkData::get_voxel_at_world_position`. -/
def ChunkData.get_voxel_at_world_position (cd : ChunkData) (world_position : IVec3) :
    Option WorldVoxel :=
  let scale := voxel_size_from_shape cd.data_shape
  let chunk_origin : IVec3 :=
    ⟨cd.position.x * (CHUNK_SIZE : ℤ), cd.position.y * (CHUNK_SIZE : ℤ),
     cd.position.z * (CHUNK_SIZE : ℤ)⟩
  let offset := world_position.sub chunk_origin
  match to_index offset.x scale.x cd.data_shape.x,
        to_index offset.y scale.y cd.data_shape.y,
        to_index offset.z scale.z cd.data_shape.z with
  | some ix, some iy, some iz => some (cd.get_voxel ⟨ix, iy, iz⟩)
  | _, _, _ => none

/-- The value of `reuse_previous` in `ChunkTask::generate`:
`matches!(strategy, Reuse) && previous_data.is_some()`. -/
def reuse_previous (strategy : ChunkRegenerateStrategy) (previous_data : Option ChunkData) :
    Bool :=
  match strategy with
  | .Reuse => previous_data.isSome
  | .Repopulate => false

/-- The `active_shape` selection of `ChunkTask::generate` (`chunk.rs` lines
407-425): the previous shape is kept when reusing a generated previous chunk
whose shape dominates the requested one on every axis. -/
def active_shape_of (desired : UVec3) (previous_data : Option ChunkData) (reuse : Bool) :
    UVec3 :=
  let previous_shape := (previous_data.map (·.data_shape)).getD desired
  if reuse = true ∧ (previous_data.map (·.has_generated)).getD false = true ∧
      desired.x ≤ previous_shape.x ∧ desired.y ≤ previous_shape.y ∧
      desired.z ≤ previous_shape.z then
    previous_shape
  else desired

/-- World position of cell `i` of the padded shape being generated
(`chunk.rs` lines 437-446): `((chunk_block - 1.0) * scale) as i32 + position * CHUNK_SIZE`. -/
def cell_world_pos (position : IVec3) (shape : UVec3) (i : ℕ) : IVec3 :=
  let cb := Shape.delinearize shape i
  let scale := voxel_size_from_shape shape
  ⟨ratTrunc (((cb.x : ℚ) - 1) * scale.x) + position.x * (CHUNK_SIZE : ℤ),
   ratTrunc (((cb.y : ℚ) - 1) * scale.y) + position.y * (CHUNK_SIZE : ℤ),
   ratTrunc (((cb.z : ℚ) - 1) * scale.z) + position.z * (CHUNK_SIZE : ℤ)⟩

/-- Body of the generation loop of `ChunkTask::generate` for one cell
(`chunk.rs` lines 448-481).  Returns the voxel stored at the cell, whether the
cell increments `filled_count`, and the material inserted into
`material_count` (if any).  Note the source increments `filled_count` for an
overlay voxel that is neither `Unset` nor `Air` but inserts no material for it. -/
def resolve_cell (overlay : IVec3 → Option WorldVoxel)
    (lookup : IVec3 → Option WorldVoxel → WorldVoxel)
    (previous_data : Option ChunkData) (reuse : Bool) (block_pos : IVec3) :
    WorldVoxel × Bool × Option ℕ :=
  match overlay block_pos with
  | some voxel => (voxel, !voxel.is_unset && !voxel.is_air, none)
  | none =>
    let previous_voxel := previous_data.bind (fun c => c.get_voxel_at_world_position block_pos)
    if reuse then
      match previous_voxel with
      | some pv =>
        if !pv.is_unset then (pv, pv.is_solid, pv.material?)
        else
          let v := lookup block_pos previous_voxel
          (v, v.is_solid, v.material?)
      | none =>
        let v := lookup block_pos previous_voxel
        (v, v.is_solid, v.material?)
    else
      let v := lookup block_pos previous_voxel
      (v, v.is_solid, v.material?)

/-- Accumulated result of the generation loop. -/
structure GenPass where
  voxels : List WorldVoxel
  filled_count : ℕ
  material_count : Finset ℕ
deriving DecidableEq

/-- The full generation loop of `ChunkTask::generate` over every cell of the
active shape.  Each iteration of the source loop writes `voxels[i]`, updates
`filled_count` and `material_count`, with no other cross-iteration state, so the
loop is expressed cell-wise. -/
def generate_pass (position : IVec3) (shape : UVec3) (overlay : IVec3 → Option WorldVoxel)
    (lookup : IVec3 → Option WorldVoxel → WorldVoxel)
    (previous_data : Option ChunkData) (reuse : Bool) : GenPass :=
  let cells := (List.range (Shape.size shape)).map
    (fun i => resolve_cell overlay lookup previous_data reuse (cell_world_pos position shape i))
  { voxels := cells.map (·.1)
    filled_count := cells.countP (·.2.1)
    material_count := cells.foldl
      (fun s c => match c.2.2 with | some m => insert m s | none => s) ∅ }

/-- Model of `ChunkTask::generate` (`chunk.rs` lines 393-498): shape selection,
cell resolution, and the final fill-type classification.  The produced
`ChunkData` keeps `position = 0` exactly as the source does (the field is only
rewritten later by `ChunkMap::apply_buffers`). -/
def generate (lod_level : ℕ) (position : IVec3) (data_shape mesh_shape : UVec3)
    (overlay : IVec3 → Option WorldVoxel)
    (lookup : IVec3 → Option WorldVoxel → WorldVoxel)
    (previous_data : Option ChunkData) (strategy : ChunkRegenerateStrategy) : ChunkData :=
  let reuse := reuse_previous strategy previous_data
  let active_shape := active_shape_of data_shape previous_data reuse
  let pass := generate_pass position active_shape overlay lookup previous_data reuse
  let sizeN := Shape.size active_shape
  let base : ChunkData :=
    { position := ⟨0, 0, 0⟩
      lod_level := lod_level
      voxels := none
      is_full := pass.filled_count == sizeN
      is_empty := pass.filled_count == 0
      fill_type := .Empty
      has_generated := true
      data_shape := active_shape
      mesh_shape := mesh_shape }
  if pass.filled_count = sizeN ∧ pass.material_count.card = 1 then
    { base with fill_type := .Uniform (pass.voxels.getD 0 .Unset), voxels := none }
  else if 0 < pass.filled_count then
    { base with fill_type := .Mixed, voxels := some pass.voxels }
  else
    { base with fill_type := .Empty, voxels := none }

end Core

namespace Meshing

/-!
Model of the LOD resampling of `meshing.rs` (`map_nearest_1d` lines 207-231 and
`resample_voxels_nearest` lines 233-257), cited by claim C5.
-/

/-- Model of `map_nearest_1d`: nearest-neighbour index mapping from a mesh-space
axis index to a data-space axis index.  Rational arithmetic stands in for the
`f32` ratio; `ratRound` is Rust's round-half-away-from-zero. -/
def map_nearest_1d (mesh_i mesh_dim data_dim : ℕ) : ℕ :=
  let mesh_inner := innerDim mesh_dim
  let data_inner := innerDim data_dim
  if mesh_inner = data_inner then mesh_i
  else if mesh_i = 0 then 0
  else if mesh_dim - 1 ≤ mesh_i then data_dim - 1
  else
    let mesh_steps : ℚ := (max (mesh_inner - 1) 1 : ℕ)
    let data_steps : ℚ := (max (data_inner - 1) 1 : ℕ)
    let mapped := ratRound (((mesh_i - 1 : ℕ) : ℚ) * (data_steps / mesh_steps))
    min (mapped.toNat + 1) (data_dim - 1)

/-- Model of `resample_voxels_nearest`: every mesh-space cell pulls the data
voxel at the componentwise `map_nearest_1d` image of its index. -/
def resample_voxels_nearest (data_voxels : List WorldVoxel)
    (data_shape mesh_shape : UVec3) : List WorldVoxel :=
  (List.range (Shape.size mesh_shape)).map (fun lin =>
    let m := Shape.delinearize mesh_shape lin
    data_voxels.getD
      (Shape.linearize data_shape
        ⟨map_nearest_1d m.x mesh_shape.x data_shape.x,
         map_nearest_1d m.y mesh_shape.y data_shape.y,
         map_nearest_1d m.z mesh_shape.z data_shape.z⟩) .Unset)

end Meshing

namespace Core

/-- Per-axis success condition of `to_index`, spelled out: the scale passes the
epsilon guard, the dimension is positive, the ceiling-mapped cell index lies
inside `[0, maxDim)`, and its reconstructed world component equals the input. -/
def axis_addressable (component : ℤ) (scale : ℚ) (maxDim : ℕ) : Prop :=
  (1 / 2 ^ 23 : ℚ) < scale ∧ 0 < maxDim ∧
  0 ≤ ratCeil (((component : ℚ) + 1) / scale) ∧
  ratCeil (((component : ℚ) + 1) / scale) < (maxDim : ℤ) ∧
  ratTrunc (((ratCeil (((component : ℚ) + 1) / scale) : ℚ) - 1) * scale) = component

theorem to_index_isSome_iff (component : ℤ) (scale : ℚ) (maxDim : ℕ) :
    (to_index component scale maxDim).isSome = true ↔
      axis_addressable component scale maxDim := by
  unfold to_index axis_addressable
  by_cases h1 : scale ≤ 1 / 2 ^ 23 ∨ maxDim = 0
  · rw [if_pos h1]
    simp only [Option.isSome_none, Bool.false_eq_true, false_iff]
    rintro ⟨hs, hm, -, -, -⟩
    rcases h1 with h1 | h1
    · exact absurd h1 (not_le.mpr hs)
    · omega
  · rw [if_neg h1]
    push_neg at h1
    by_cases h2 : ratCeil (((component : ℚ) + 1) / scale) < 0
    · rw [if_pos h2]
      simp only [Option.isSome_none, Bool.false_eq_true, false_iff]
      rintro ⟨-, -, hge, -, -⟩
      omega
    · rw [if_neg h2]
      by_cases h3 : ratCeil (((component : ℚ) + 1) / scale) < 0 ∨
          (maxDim : ℤ) ≤ ratCeil (((component : ℚ) + 1) / scale)
      · rw [if_pos h3]
        simp only [Option.isSome_none, Bool.false_eq_true, false_iff]
        rintro ⟨-, -, -, hlt, -⟩
        rcases h3 with h3 | h3
        · exact h2 h3
        · omega
      · rw [if_neg h3]
        push_neg at h3
        by_cases h4 : ratTrunc (((ratCeil (((component : ℚ) + 1) / scale) : ℚ) - 1) * scale)
            ≠ component
        · rw [if_pos h4]
          simp only [Option.isSome_none, Bool.false_eq_true, false_iff]
          rintro ⟨-, -, -, -, heq⟩
          exact h4 heq
        · rw [if_neg h4]
          simp only [Option.isSome_some, true_iff]
          exact ⟨h1.1, Nat.pos_of_ne_zero h1.2, not_lt.mp h2, h3.2, not_ne_iff.mp h4⟩

/-- Distinct materials occurring among the solid voxels of a list. -/
def distinct_solid_materials (l : List WorldVoxel) : Finset ℕ :=
  l.foldl (fun s v => match v.material? with | some m => insert m s | none => s) ∅

theorem is_solid_eq_not_unset_not_air (v : WorldVoxel) :
    v.is_solid = (!v.is_unset && !v.is_air) := by
  cases v <;> rfl

theorem generate_pass_voxels_get (position : IVec3) (shape : UVec3)
    (overlay : IVec3 → Option WorldVoxel)
    (lookup : IVec3 → Option WorldVoxel → WorldVoxel)
    (previous_data : Option ChunkData) (reuse : Bool) (i : ℕ)
    (hi : i < Shape.size shape) :
    (generate_pass position shape overlay lookup previous_data reuse).voxels[i]? =
      some (resolve_cell overlay lookup previous_data reuse
              (cell_world_pos position shape i)).1 := by
  simp [generate_pass, List.getElem?_map, List.getElem?_range, hi]

theorem generate_pass_filled_count (position : IVec3) (shape : UVec3)
    (overlay : IVec3 → Option WorldVoxel)
    (lookup : IVec3 → Option WorldVoxel → WorldVoxel)
    (previous_data : Option ChunkData) (reuse : Bool) :
    (generate_pass position shape overlay lookup previous_data reuse).filled_count =
      (generate_pass position shape overlay lookup previous_data reuse).voxels.countP
        (fun v => !v.is_unset && !v.is_air) := by
  unfold generate_pass
  rw [List.countP_map]
  refine List.countP_congr ?_
  intro c hc
  rcases List.mem_map.mp hc with ⟨i, _, rfl⟩
  unfold resolve_cell
  rcases overlay (cell_world_pos position shape i) with _ | v
  · simp only []
    rcases h : (previous_data.bind
        (fun c => c.get_voxel_at_world_position (cell_world_pos position shape i))) with _ | pv <;>
      cases reuse <;>
      simp [h, is_solid_eq_not_unset_not_air] <;>
      split_ifs <;>
      simp [is_solid_eq_not_unset_not_air]
  · rfl

end Core

namespace Core

theorem resolve_cell_fst (overlay : IVec3 → Option WorldVoxel)
    (lookup : IVec3 → Option WorldVoxel → WorldVoxel)
    (previous_data : Option ChunkData) (reuse : Bool) (bp : IVec3) :
    (resolve_cell overlay lookup previous_data reuse bp).1 =
      (match overlay bp with
       | some v => v
       | none =>
         match previous_data.bind (fun c => c.get_voxel_at_world_position bp) with
         | some pv =>
           if reuse = true ∧ pv.is_unset = false then pv
           else lookup bp (previous_data.bind (fun c => c.get_voxel_at_world_position bp))
         | none => lookup bp (previous_data.bind (fun c => c.get_voxel_at_world_position bp))) := by
  unfold resolve_cell
  rcases overlay bp with _ | v
  · rcases h : previous_data.bind (fun c => c.get_voxel_at_world_position bp) with _ | pv
    · cases reuse <;> simp [h]
    · cases reuse <;> simp [h] <;> rcases hpv : pv.is_unset <;> simp [hpv]
  · rfl

end Core

/-- Claim C2 (code bug): evaluating `ChunkTask::generate` on a chunk whose cells
are all solid, where the overlay supplies `Solid 2` at one cell and the lookup
returns `Solid 1` elsewhere.  The source never inserts overlay materials into
`material_count`, so this full two-material chunk is classified
`Uniform(Solid 1)` and its dense array is dropped, although two distinct solid
materials occur among its cells — contradicting the claim (and the `FillType`
documentation, which reserves `Uniform` for chunks containing a single voxel
type). -/
theorem C2_full_two_material_chunk_classified_uniform :
    (Core.generate 0 ⟨0, 0, 0⟩ ⟨3, 1, 1⟩ ⟨3, 1, 1⟩
        (fun p => if p = ⟨0, -32, -32⟩ then some (.Solid 2) else none)
        (fun _ _ => .Solid 1) none .Repopulate).fill_type = .Uniform (.Solid 1) ∧
    (Core.generate 0 ⟨0, 0, 0⟩ ⟨3, 1, 1⟩ ⟨3, 1, 1⟩
        (fun p => if p = ⟨0, -32, -32⟩ then some (.Solid 2) else none)
        (fun _ _ => .Solid 1) none .Repopulate).voxels = none ∧
    (Core.generate 0 ⟨0, 0, 0⟩ ⟨3, 1, 1⟩ ⟨3, 1, 1⟩
        (fun p => if p = ⟨0, -32, -32⟩ then some (.Solid 2) else none)
        (fun _ _ => .Solid 1) none .Repopulate).is_full = true ∧
    (Core.generate_pass ⟨0, 0, 0⟩ ⟨3, 1, 1⟩
        (fun p => if p = ⟨0, -32, -32⟩ then some (.Solid 2) else none)
        (fun _ _ => .Solid 1) none false).voxels = [.Solid 1, .Solid 2, .Solid 1] ∧
    (Core.distinct_solid_materials
        (Core.generate_pass ⟨0, 0, 0⟩ ⟨3, 1, 1⟩
          (fun p => if p = ⟨0, -32, -32⟩ then some (.Solid 2) else none)
          (fun _ _ => .Solid 1) none false).voxels).card = 2 := by
  refine ⟨?_, ?_, ?_, ?_, ?_⟩ <;>
    norm_num [Core.generate, Core.generate_pass, Core.resolve_cell, Core.cell_world_pos,
      Core.distinct_solid_materials, Shape.size, Shape.delinearize, voxel_size_from_shape,
      innerDim, CHUNK_SIZE, ratTrunc, ratFloor, ratCeil, Core.reuse_previous,
      Core.active_shape_of, List.range_succ, WorldVoxel.is_unset, WorldVoxel.is_air,
      WorldVoxel.is_solid, WorldVoxel.material?]

/-- Claim C4: each cell generated by `ChunkTask::generate` follows the claimed
precedence — overlay override first (used verbatim), then reuse of a non-`Unset`
previous voxel under the `Reuse` strategy, then the caller lookup applied to the
world position and the previous-voxel hint; and a cell counts as filled exactly
when its resolved value is neither `Unset` nor `Air`. -/
theorem C4_generate_resolution_order (position : IVec3) (data_shape : UVec3)
    (overlay : IVec3 → Option WorldVoxel) (lookup : IVec3 → Option WorldVoxel → WorldVoxel)
    (previous_data : Option Core.ChunkData) (strategy : Core.ChunkRegenerateStrategy) (i : ℕ)
    (hi : i < Shape.size
      (Core.active_shape_of data_shape previous_data
        (Core.reuse_previous strategy previous_data))) :
    ((Core.generate_pass position
        (Core.active_shape_of data_shape previous_data
          (Core.reuse_previous strategy previous_data))
        overlay lookup previous_data (Core.reuse_previous strategy previous_data)).voxels[i]? =
      some (match overlay (Core.cell_world_pos position
              (Core.active_shape_of data_shape previous_data
                (Core.reuse_previous strategy previous_data)) i) with
        | some v => v
        | none =>
          match previous_data.bind (fun c => c.get_voxel_at_world_position
              (Core.cell_world_pos position
                (Core.active_shape_of data_shape previous_data
                  (Core.reuse_previous strategy previous_data)) i)) with
          | some pv =>
            if Core.reuse_previous strategy previous_data = true ∧ pv.is_unset = false then pv
            else lookup (Core.cell_world_pos position
                (Core.active_shape_of data_shape previous_data
                  (Core.reuse_previous strategy previous_data)) i)
              (previous_data.bind (fun c => c.get_voxel_at_world_position
                (Core.cell_world_pos position
                  (Core.active_shape_of data_shape previous_data
                    (Core.reuse_previous strategy previous_data)) i)))
          | none => lookup (Core.cell_world_pos position
                (Core.active_shape_of data_shape previous_data
                  (Core.reuse_previous strategy previous_data)) i)
              (previous_data.bind (fun c => c.get_voxel_at_world_position
                (Core.cell_world_pos position
                  (Core.active_shape_of data_shape previous_data
                    (Core.reuse_previous strategy previous_data)) i))))) ∧
    (Core.generate_pass position
        (Core.active_shape_of data_shape previous_data
          (Core.reuse_previous strategy previous_data))
        overlay lookup previous_data (Core.reuse_previous strategy previous_data)).filled_count =
      (Core.generate_pass position
        (Core.active_shape_of data_shape previous_data
          (Core.reuse_previous strategy previous_data))
        overlay lookup previous_data (Core.reuse_previous strategy previous_data)).voxels.countP
        (fun v => !v.is_unset && !v.is_air) := by
  constructor
  · rw [Core.generate_pass_voxels_get _ _ _ _ _ _ _ hi, Core.resolve_cell_fst]
  · exact Core.generate_pass_filled_count _ _ _ _ _ _

/-- Witness for C4 at a concrete input: chunk at the origin, a 3×1×1 shape, an
overlay entry at the middle cell, a constant lookup, no previous data. -/
theorem C4_generate_resolution_order_witness :
    (1 < Shape.size
      (Core.active_shape_of ⟨3, 1, 1⟩ none
        (Core.reuse_previous .Repopulate none))) ∧
    ((Core.generate_pass ⟨0, 0, 0⟩
        (Core.active_shape_of ⟨3, 1, 1⟩ none (Core.reuse_previous .Repopulate none))
        (fun p => if p = ⟨0, -32, -32⟩ then some (.Solid 2) else none)
        (fun _ _ => .Solid 1) none (Core.reuse_previous .Repopulate none)).voxels[1]? =
      some (match (fun p => if p = (⟨0, -32, -32⟩ : IVec3) then some (WorldVoxel.Solid 2) else none)
              (Core.cell_world_pos ⟨0, 0, 0⟩
                (Core.active_shape_of ⟨3, 1, 1⟩ none (Core.reuse_previous .Repopulate none)) 1) with
        | some v => v
        | none =>
          match (none : Option Core.ChunkData).bind (fun c => c.get_voxel_at_world_position
              (Core.cell_world_pos ⟨0, 0, 0⟩
                (Core.active_shape_of ⟨3, 1, 1⟩ none (Core.reuse_previous .Repopulate none)) 1)) with
          | some pv =>
            if Core.reuse_previous .Repopulate none = true ∧ pv.is_unset = false then pv
            else (fun _ _ => WorldVoxel.Solid 1) (Core.cell_world_pos ⟨0, 0, 0⟩
                (Core.active_shape_of ⟨3, 1, 1⟩ none (Core.reuse_previous .Repopulate none)) 1)
              ((none : Option Core.ChunkData).bind (fun c => c.get_voxel_at_world_position
                (Core.cell_world_pos ⟨0, 0, 0⟩
                  (Core.active_shape_of ⟨3, 1, 1⟩ none (Core.reuse_previous .Repopulate none)) 1)))
          | none => (fun _ _ => WorldVoxel.Solid 1) (Core.cell_world_pos ⟨0, 0, 0⟩
                (Core.active_shape_of ⟨3, 1, 1⟩ none (Core.reuse_previous .Repopulate none)) 1)
              ((none : Option Core.ChunkData).bind (fun c => c.get_voxel_at_world_position
                (Core.cell_world_pos ⟨0, 0, 0⟩
                  (Core.active_shape_of ⟨3, 1, 1⟩ none (Core.reuse_previous .Repopulate none)) 1)))) ∧
    (Core.generate_pass ⟨0, 0, 0⟩
        (Core.active_shape_of ⟨3, 1, 1⟩ none (Core.reuse_previous .Repopulate none))
        (fun p => if p = ⟨0, -32, -32⟩ then some (.Solid 2) else none)
        (fun _ _ => .Solid 1) none (Core.reuse_previous .Repopulate none)).filled_count =
      (Core.generate_pass ⟨0, 0, 0⟩
        (Core.active_shape_of ⟨3, 1, 1⟩ none (Core.reuse_previous .Repopulate none))
        (fun p => if p = ⟨0, -32, -32⟩ then some (.Solid 2) else none)
        (fun _ _ => .Solid 1) none (Core.reuse_previous .Repopulate none)).voxels.countP
        (fun v => !v.is_unset && !v.is_air)) :=
  ⟨by decide,
   C4_generate_resolution_order ⟨0, 0, 0⟩ ⟨3, 1, 1⟩
     (fun p => if p = ⟨0, -32, -32⟩ then some (.Solid 2) else none)
     (fun _ _ => .Solid 1) none .Repopulate 1 (by decide)⟩

theorem innerDim_of_three_le {e : ℕ} (h : 3 ≤ e) : innerDim e = e - 2 := by
  unfold innerDim
  omega

/-- Claim C5 counterexample: for the padded dimension pair `(mesh_dim, data_dim)
= (4, 3)` (inner sizes 2 and 1, which differ) the interior mesh index `2` is
mapped by the code to data index `2`, while the claimed formula
`round((i-1)·(data_inner-1)/(mesh_inner-1)) + 1` yields `1`: the source clamps
the step counts with `.max(1)` and the result with `.min(data_dim-1)`, which
the claimed formula ignores. -/
theorem C5_counterexample_interior_formula :
    Meshing.map_nearest_1d 2 4 3 = 2 ∧
    (ratRound (((2 : ℚ) - 1) *
        (((innerDim 3 : ℚ) - 1) / ((innerDim 4 : ℚ) - 1)))).toNat + 1 = 1 ∧
    innerDim 4 ≠ innerDim 3 ∧ 0 < 2 ∧ 2 < 4 - 1 := by
  refine ⟨?_, ?_, by decide, by decide, by decide⟩
  · norm_num [Meshing.map_nearest_1d, innerDim, ratRound, ratFloor]
  · norm_num [innerDim, ratRound, ratFloor]

/-- Claim C5 as amended: for padded dimensions (at least 3) with differing inner
sizes, mesh index 0 maps to data index 0 and the last mesh index to the last
data index; the claimed proportional formula for interior indices holds
whenever both inner sizes are at least 2 (when an inner size is 1 the source's
`.max(1)` clamps change the ratio, as the counterexample shows). -/
theorem C5_amended_nearest_map (mesh_dim data_dim : ℕ) (h3m : 3 ≤ mesh_dim)
    (h3d : 3 ≤ data_dim) (hne : innerDim mesh_dim ≠ innerDim data_dim) :
    Meshing.map_nearest_1d 0 mesh_dim data_dim = 0 ∧
    Meshing.map_nearest_1d (mesh_dim - 1) mesh_dim data_dim = data_dim - 1 ∧
    (∀ i, 0 < i → i < mesh_dim - 1 → 2 ≤ innerDim mesh_dim → 2 ≤ innerDim data_dim →
      Meshing.map_nearest_1d i mesh_dim data_dim =
        (ratRound (((i : ℚ) - 1) *
          (((innerDim data_dim : ℚ) - 1) / ((innerDim mesh_dim : ℚ) - 1)))).toNat + 1) := by
  refine ⟨?_, ?_, ?_⟩
  · unfold Meshing.map_nearest_1d
    rw [if_neg hne, if_pos rfl]
  · unfold Meshing.map_nearest_1d
    rw [if_neg hne, if_neg (by omega), if_pos (le_refl _)]
  · intro i h0 hlt hmi hdi
    unfold Meshing.map_nearest_1d
    rw [if_neg hne, if_neg (by omega), if_neg (by omega)]
    have hms : max (innerDim mesh_dim - 1) 1 = innerDim mesh_dim - 1 := by omega
    have hds : max (innerDim data_dim - 1) 1 = innerDim data_dim - 1 := by omega
    rw [hms, hds]
    have hc1 : ((i - 1 : ℕ) : ℚ) = (i : ℚ) - 1 := by
      push_cast [Nat.cast_sub h0]
      ring
    have hc2 : ((innerDim mesh_dim - 1 : ℕ) : ℚ) = (innerDim mesh_dim : ℚ) - 1 := by
      push_cast [Nat.cast_sub (by omega : 1 ≤ innerDim mesh_dim)]
      ring
    have hc3 : ((innerDim data_dim - 1 : ℕ) : ℚ) = (innerDim data_dim : ℚ) - 1 := by
      push_cast [Nat.cast_sub (by omega : 1 ≤ innerDim data_dim)]
      ring
    rw [hc1, hc2, hc3]
    have hmieq : innerDim mesh_dim = mesh_dim - 2 := innerDim_of_three_le h3m
    have hdieq : innerDim data_dim = data_dim - 2 := innerDim_of_three_le h3d
    have hxnn : (0 : ℚ) ≤ ((i : ℚ) - 1) *
        (((innerDim data_dim : ℚ) - 1) / ((innerDim mesh_dim : ℚ) - 1)) := by
      have h1 : (0 : ℚ) ≤ (i : ℚ) - 1 := by
        have : (1 : ℚ) ≤ (i : ℚ) := by exact_mod_cast h0
        linarith
      have h2 : (0 : ℚ) ≤ ((innerDim data_dim : ℚ) - 1) / ((innerDim mesh_dim : ℚ) - 1) := by
        apply div_nonneg
        · have : (1 : ℚ) ≤ (innerDim data_dim : ℚ) := by
            exact_mod_cast (by omega : 1 ≤ innerDim data_dim)
          linarith
        · have : (1 : ℚ) ≤ (innerDim mesh_dim : ℚ) := by
            exact_mod_cast (by omega : 1 ≤ innerDim mesh_dim)
          linarith
      exact mul_nonneg h1 h2
    have hxle : ((i : ℚ) - 1) *
        (((innerDim data_dim : ℚ) - 1) / ((innerDim mesh_dim : ℚ) - 1)) ≤
        (innerDim data_dim : ℚ) - 1 := by
      have him : (i : ℚ) - 1 ≤ (innerDim mesh_dim : ℚ) - 1 := by
        have h : i ≤ innerDim mesh_dim := by omega
        have := (Nat.cast_le (α := ℚ)).mpr h
        linarith
      have hmpos : (0 : ℚ) < (innerDim mesh_dim : ℚ) - 1 := by
        have : (2 : ℚ) ≤ (innerDim mesh_dim : ℚ) := by exact_mod_cast hmi
        linarith
      have hdpos : (0 : ℚ) ≤ (innerDim data_dim : ℚ) - 1 := by
        have : (2 : ℚ) ≤ (innerDim data_dim : ℚ) := by exact_mod_cast hdi
        linarith
      calc ((i : ℚ) - 1) * (((innerDim data_dim : ℚ) - 1) / ((innerDim mesh_dim : ℚ) - 1))
          ≤ ((innerDim mesh_dim : ℚ) - 1) *
            (((innerDim data_dim : ℚ) - 1) / ((innerDim mesh_dim : ℚ) - 1)) := by
            apply mul_le_mul_of_nonneg_right him
            exact div_nonneg hdpos (le_of_lt hmpos)
        _ = (innerDim data_dim : ℚ) - 1 := by
            field_simp
    have hround : ratRound (((i : ℚ) - 1) *
        (((innerDim data_dim : ℚ) - 1) / ((innerDim mesh_dim : ℚ) - 1))) ≤
        (innerDim data_dim : ℤ) - 1 := by
      rw [ratRound, if_pos hxnn, ratFloor_eq_floor]
      have hstep : ((i : ℚ) - 1) *
          (((innerDim data_dim : ℚ) - 1) / ((innerDim mesh_dim : ℚ) - 1)) + 1/2
          ≤ ((innerDim data_dim : ℚ) - 1) + 1/2 := by linarith
      calc (⌊((i : ℚ) - 1) *
            (((innerDim data_dim : ℚ) - 1) / ((innerDim mesh_dim : ℚ) - 1)) + 1/2⌋ : ℤ)
          ≤ ⌊((innerDim data_dim : ℚ) - 1) + 1/2⌋ := Int.floor_le_floor hstep
        _ = (innerDim data_dim : ℤ) - 1 := by
            rw [Int.floor_eq_iff]
            constructor
            · push_cast
              linarith
            · push_cast
              linarith
    apply min_eq_left
    have h1 : (ratRound (((i : ℚ) - 1) *
        (((innerDim data_dim : ℚ) - 1) / ((innerDim mesh_dim : ℚ) - 1)))).toNat ≤
        innerDim data_dim - 1 := by
      have := Int.toNat_le_toNat hround
      simpa using this
    omega

/-- Witness for C5 at the dimension pair (6, 4): inner sizes 4 and 2 differ and
are both at least 2. -/
theorem C5_amended_nearest_map_witness :
    (3 ≤ 6 ∧ 3 ≤ 4 ∧ innerDim 6 ≠ innerDim 4) ∧
    (Meshing.map_nearest_1d 0 6 4 = 0 ∧
     Meshing.map_nearest_1d (6 - 1) 6 4 = 4 - 1 ∧
     (∀ i, 0 < i → i < 6 - 1 → 2 ≤ innerDim 6 → 2 ≤ innerDim 4 →
       Meshing.map_nearest_1d i 6 4 =
         (ratRound (((i : ℚ) - 1) *
           (((innerDim 4 : ℚ) - 1) / ((innerDim 6 : ℚ) - 1)))).toNat + 1)) :=
  ⟨⟨by decide, by decide, by decide⟩,
   C5_amended_nearest_map 6 4 (by decide) (by decide) (by decide)⟩

/-- Claim C9: `get_voxel_at_world_position` returns `Some` exactly when every
axis of the offset from the chunk origin passes the addressability test — the
ceiling-mapped cell index lies inside the data shape and reconstructs the exact
world component.  In particular, at the coarser data shape 18³ (scale 2), the
world position (1,0,0) lies inside the chunk volume (components within
`[0, 32)`) of the chunk at the origin yet yields `None`. -/
theorem C9_world_position_lookup_characterization :
    (∀ (cd : Core.ChunkData) (w : IVec3),
      (cd.get_voxel_at_world_position w).isSome = true ↔
        (Core.axis_addressable
            (w.sub ⟨cd.position.x * (CHUNK_SIZE : ℤ), cd.position.y * (CHUNK_SIZE : ℤ),
              cd.position.z * (CHUNK_SIZE : ℤ)⟩).x
            (voxel_size_from_shape cd.data_shape).x cd.data_shape.x ∧
         Core.axis_addressable
            (w.sub ⟨cd.position.x * (CHUNK_SIZE : ℤ), cd.position.y * (CHUNK_SIZE : ℤ),
              cd.position.z * (CHUNK_SIZE : ℤ)⟩).y
            (voxel_size_from_shape cd.data_shape).y cd.data_shape.y ∧
         Core.axis_addressable
            (w.sub ⟨cd.position.x * (CHUNK_SIZE : ℤ), cd.position.y * (CHUNK_SIZE : ℤ),
              cd.position.z * (CHUNK_SIZE : ℤ)⟩).z
            (voxel_size_from_shape cd.data_shape).z cd.data_shape.z)) ∧
    (({ Core.ChunkData.new with data_shape := ⟨18, 18, 18⟩ } :
        Core.ChunkData).get_voxel_at_world_position ⟨1, 0, 0⟩ = none ∧
      (0 : ℤ) ≤ 1 ∧ (1 : ℤ) < (CHUNK_SIZE : ℤ)) := by
  constructor
  · intro cd w
    rw [← Core.to_index_isSome_iff, ← Core.to_index_isSome_iff, ← Core.to_index_isSome_iff]
    unfold Core.ChunkData.get_voxel_at_world_position
    rcases h1 : Core.to_index _ _ cd.data_shape.x with _ | ix <;>
      rcases h2 : Core.to_index _ _ cd.data_shape.y with _ | iy <;>
        rcases h3 : Core.to_index _ _ cd.data_shape.z with _ | iz <;>
          simp_all
  · refine ⟨?_, by decide, by decide⟩
    norm_num [Core.ChunkData.get_voxel_at_world_position, Core.ChunkData.new, Core.to_index,
      IVec3.sub, voxel_size_from_shape, innerDim, CHUNK_SIZE, PADDED_CHUNK_SIZE, ratCeil,
      ratFloor, ratTrunc]

namespace Spawn

/-!
Model of `spawn_chunks` from `voxel_world_internal.rs` (lines 190-312), cited by
claim C7.  The camera/viewport ray casting produces an arbitrary list of chunk
coordinates that seed the queue; it is abstracted as the `ray_chunks` input.
The chunk map is read under a single read lock for the whole system run, so
membership is a fixed predicate `has_chunk`.  Entity spawning and the insert
buffer are summarised by the returned list of created chunk coordinates, each
paired with the length of the queue remaining at the moment it was created.
-/

/-- Model of `ChunkSpawnStrategy` from `configuration.rs`. -/
inductive ChunkSpawnStrategy where
  | CloseAndInView
  | Close
deriving DecidableEq

/-- Configuration fields of `VoxelWorldConfiguration` read by `spawn_chunks`. -/
structure SpawnConfig where
  spawning_distance : ℕ
  max_spawn_per_frame : ℕ
  chunk_spawn_strategy : ChunkSpawnStrategy

/-- The 27 offsets of the `-1..=1` triple loop, in source iteration order
(`x` outermost, `z` innermost). -/
def offsets27 : List IVec3 :=
  (List.range 3).flatMap (fun i =>
    (List.range 3).flatMap (fun j =>
      (List.range 3).map (fun k => ⟨(i : ℤ) - 1, (j : ℤ) - 1, (k : ℤ) - 1⟩)))

/-- The 26 neighbours queued after creating a chunk: the same triple loop,
skipping the centre (`queue_pos == chunk_position`). -/
def neighbor_queue (p : IVec3) : List IVec3 :=
  (offsets27.filter (fun o => decide (o ≠ ⟨0, 0, 0⟩))).map (fun o => p.add o)

/-- The drain loop of `spawn_chunks` (lines 255-311).  One fuel unit per
iteration; the source loop terminates because every iteration pops the front of
the queue and pushes only after a creation, which can happen at most once per
coordinate (the `visited` set).  Each created chunk records the queue length
that remained when it was popped. -/
def spawn_loop (cfg : SpawnConfig) (has_chunk : IVec3 → Bool) (chunk_at_camera : IVec3) :
    ℕ → List IVec3 → List IVec3 → List (IVec3 × ℕ) → List (IVec3 × ℕ)
  | 0, _, _, created => created.reverse
  | Nat.succ fuel, deque, visited, created =>
    match deque with
    | [] => created.reverse
    | p :: rest =>
      if p ∈ visited ∨ cfg.max_spawn_per_frame < rest.length then
        spawn_loop cfg has_chunk chunk_at_camera fuel rest visited created
      else if ((cfg.spawning_distance : ℤ)) ^ 2 < p.distance_squared chunk_at_camera then
        spawn_loop cfg has_chunk chunk_at_camera fuel rest (p :: visited) created
      else if has_chunk p then
        spawn_loop cfg has_chunk chunk_at_camera fuel rest (p :: visited) created
      else if cfg.chunk_spawn_strategy ≠ ChunkSpawnStrategy.Close then
        spawn_loop cfg has_chunk chunk_at_camera fuel rest (p :: visited)
          ((p, rest.length) :: created)
      else
        spawn_loop cfg has_chunk chunk_at_camera fuel (rest ++ neighbor_queue p)
          (p :: visited) ((p, rest.length) :: created)

/-- Model of `spawn_chunks`: the queue is seeded with the ray-discovered chunks
followed by the 27-chunk neighbourhood of the camera chunk, then drained. -/
def spawn_chunks (cfg : SpawnConfig) (has_chunk : IVec3 → Bool) (ray_chunks : List IVec3)
    (chunk_at_camera : IVec3) (fuel : ℕ) : List (IVec3 × ℕ) :=
  spawn_loop cfg has_chunk chunk_at_camera fuel
    (ray_chunks ++ offsets27.map (fun o => chunk_at_camera.add o)) [] []

theorem spawn_loop_queue_bound (cfg : SpawnConfig) (has_chunk : IVec3 → Bool)
    (chunk_at_camera : IVec3) (fuel : ℕ) :
    ∀ (deque visited : List IVec3) (created : List (IVec3 × ℕ)),
      (∀ pr ∈ created, pr.2 ≤ cfg.max_spawn_per_frame) →
      ∀ pr ∈ spawn_loop cfg has_chunk chunk_at_camera fuel deque visited created,
        pr.2 ≤ cfg.max_spawn_per_frame := by
  induction fuel with
  | zero =>
    intro deque visited created hc pr hpr
    rw [spawn_loop] at hpr
    exact hc pr (List.mem_reverse.mp hpr)
  | succ n ih =>
    intro deque visited created hc pr hpr
    rcases deque with _ | ⟨p, rest⟩
    · rw [spawn_loop] at hpr
      exact hc pr (List.mem_reverse.mp hpr)
    · rw [spawn_loop] at hpr
      by_cases h1 : p ∈ visited ∨ cfg.max_spawn_per_frame < rest.length
      · rw [if_pos h1] at hpr
        exact ih rest visited created hc pr hpr
      · rw [if_neg h1] at hpr
        push_neg at h1
        have hlen : rest.length ≤ cfg.max_spawn_per_frame := h1.2
        have hc2 : ∀ pr ∈ ((p, rest.length) :: created), pr.2 ≤ cfg.max_spawn_per_frame := by
          intro q hq
          rcases List.mem_cons.mp hq with rfl | hq
          · exact hlen
          · exact hc q hq
        split_ifs at hpr with h2 h3 h4
        · exact ih rest (p :: visited) created hc pr hpr
        · exact ih rest (p :: visited) created hc pr hpr
        · exact ih rest (p :: visited) ((p, rest.length) :: created) hc2 pr hpr
        · exact ih (rest ++ neighbor_queue p) (p :: visited) ((p, rest.length) :: created)
            hc2 pr hpr

end Spawn

/-- Claim C7 counterexample: with `max_spawn_per_frame = 0`, no ray hits, an
empty chunk map and the camera at the origin, a single `spawn_chunks` run still
creates one chunk (the last element of the 27-chunk camera neighbourhood is
popped with an empty queue remaining, so the length guard passes), exceeding
the claimed cap of 0 creations. -/
theorem C7_counterexample_cap_exceeded :
    Spawn.spawn_chunks ⟨10, 0, .CloseAndInView⟩ (fun _ => false) [] ⟨0, 0, 0⟩ 30 =
      [(⟨1, 1, 1⟩, 0)] ∧
    (Spawn.spawn_chunks ⟨10, 0, .CloseAndInView⟩ (fun _ => false) [] ⟨0, 0, 0⟩ 30).length = 1 ∧
    0 < 1 := by
  refine ⟨by decide, by decide, by decide⟩

/-- Claim C7 as amended: the per-tick guard of `spawn_chunks` bounds the length
of the queue remaining when a popped coordinate is processed, not the number of
chunks created — every chunk created in one invocation was popped while at most
`max_spawn_per_frame` coordinates remained queued (but the number created can
exceed the cap, as the counterexample shows). -/
theorem C7_amended_queue_length_guard (cfg : Spawn.SpawnConfig) (has_chunk : IVec3 → Bool)
    (ray_chunks : List IVec3) (chunk_at_camera : IVec3) (fuel : ℕ) :
    ∀ pr ∈ Spawn.spawn_chunks cfg has_chunk ray_chunks chunk_at_camera fuel,
      pr.2 ≤ cfg.max_spawn_per_frame := by
  intro pr hpr
  exact Spawn.spawn_loop_queue_bound cfg has_chunk chunk_at_camera fuel _ _ []
    (by intro q hq; cases hq) pr hpr

/-- Witness for C7 instantiating the amended theorem on a concrete run that
creates a chunk. -/
theorem C7_amended_queue_length_guard_witness :
    ((⟨1, 1, 1⟩, 0) : IVec3 × ℕ) ∈
      Spawn.spawn_chunks ⟨10, 5, .CloseAndInView⟩ (fun _ => false) [] ⟨0, 0, 0⟩ 30 ∧
    (0 : ℕ) ≤ 5 :=
  ⟨by decide,
   C7_amended_queue_length_guard ⟨10, 5, .CloseAndInView⟩ (fun _ => false) [] ⟨0, 0, 0⟩ 30
     (⟨1, 1, 1⟩, 0) (by decide)⟩

namespace ChunkMapNS

/-!
Model of `ChunkMap::apply_buffers` from the modern `chunk_map.rs` (lines
70-138), cited by claim C8.  The `HashMap` is modelled as an association list
with key-replacing insert; `Aabb3d` carries exact rational corners (all values
reached here are small integers, exact in `f32`).  The `try_write` lock
acquisition is modelled as succeeding, and the `ChunkWillSpawn` events of the
update pass carry no state.
-/

/-- Model of `bevy::math::bounding::Aabb3d` with exact rational corners. -/
structure Aabb3d where
  min : Vec3
  max : Vec3
deriving DecidableEq

/-- Cast of an integer vector to `f32` space (`IVec3::as_vec3`). -/
def vec3_of_ivec (p : IVec3) : Vec3 := ⟨(p.x : ℚ), (p.y : ℚ), (p.z : ℚ)⟩

/-- Model of `Vec3A::floor().as_ivec3()`. -/
def floor_ivec (v : Vec3) : IVec3 := ⟨ratFloor v.x, ratFloor v.y, ratFloor v.z⟩

/-- Componentwise minimum (`Vec3A::min`). -/
def comp_min (a b : Vec3) : Vec3 := ⟨min a.x b.x, min a.y b.y, min a.z b.z⟩

/-- Componentwise maximum (`Vec3A::max`). -/
def comp_max (a b : Vec3) : Vec3 := ⟨max a.x b.x, max a.y b.y, max a.z b.z⟩

/-- Model of `ChunkMapData`: the chunk store and the running bounds. -/
structure ChunkMapData where
  data : List (IVec3 × Core.ChunkData)
  bounds : Aabb3d

/-- Key-replacing insert of the `HashMap`. -/
def map_insert (m : List (IVec3 × Core.ChunkData)) (k : IVec3) (v : Core.ChunkData) :
    List (IVec3 × Core.ChunkData) :=
  (k, v) :: m.filter (fun kv => decide (kv.1 ≠ k))

/-- Key removal of the `HashMap`. -/
def map_remove (m : List (IVec3 × Core.ChunkData)) (k : IVec3) :
    List (IVec3 × Core.ChunkData) :=
  m.filter (fun kv => decide (kv.1 ≠ k))

/-- Membership test of the `HashMap`. -/
def map_contains (m : List (IVec3 × Core.ChunkData)) (k : IVec3) : Bool :=
  m.any (fun kv => decide (kv.1 = k))

/-- The per-insert bounds update of `apply_buffers` (lines 91-96 and 109-114):
if the coordinate is below the current min on some axis, the min is lowered;
otherwise, if it is above the current max on some axis, the max is raised. -/
def bounds_insert (b : Aabb3d) (p : IVec3) : Aabb3d :=
  let pf := vec3_of_ivec p
  if pf.x < b.min.x ∨ pf.y < b.min.y ∨ pf.z < b.min.z then
    { b with min := comp_min pf b.min }
  else if b.max.x < pf.x ∨ b.max.y < pf.y ∨ b.max.z < pf.z then
    { b with max := comp_max pf b.max }
  else b

/-- Model of `Aabb3d::from_point_cloud` with the identity isometry: the
componentwise min/max of all points.  The source panics on an empty cloud; the
total model returns the zero box there (no theorem relies on that case). -/
def from_point_cloud (pts : List Vec3) : Aabb3d :=
  match pts with
  | [] => ⟨⟨0, 0, 0⟩, ⟨0, 0, 0⟩⟩
  | p :: rest => rest.foldl (fun acc q => ⟨comp_min acc.min q, comp_max acc.max q⟩) ⟨p, p⟩

/-- One insert (or update) iteration of `apply_buffers`: the stored chunk data
gets its `position` field overwritten with the key, and the bounds are extended. -/
def insert_chunk (st : ChunkMapData) (pc : IVec3 × Core.ChunkData) : ChunkMapData :=
  { data := map_insert st.data pc.1 { pc.2 with position := pc.1 },
    bounds := bounds_insert st.bounds pc.1 }

/-- Model of `ChunkMap::apply_buffers`: early return when all three buffers are
empty; inserts then updates extend the bounds incrementally; removals delete
keys, and `need_rebuild_aabb` is re-assigned (not or-ed) on every removal, so
only the last removed coordinate decides whether the bounds are recomputed from
the remaining keys. -/
def apply_buffers (st : ChunkMapData) (insert_buffer update_buffer : List (IVec3 × Core.ChunkData))
    (remove_buffer : List IVec3) : ChunkMapData :=
  if insert_buffer = [] ∧ update_buffer = [] ∧ remove_buffer = [] then st
  else
    let st1 := (insert_buffer ++ update_buffer).foldl insert_chunk st
    let need_rebuild := remove_buffer.foldl
      (fun _ p => decide (floor_ivec st1.bounds.min = p) || decide (floor_ivec st1.bounds.max = p))
      false
    let data2 := remove_buffer.foldl (fun d p => map_remove d p) st1.data
    if need_rebuild then
      { data := data2, bounds := from_point_cloud (data2.map (fun kv => vec3_of_ivec kv.1)) }
    else
      { data := data2, bounds := st1.bounds }

/-- Inclusive containment of a chunk coordinate in a bounding box. -/
def aabb_contains (b : Aabb3d) (p : IVec3) : Prop :=
  b.min.x ≤ (p.x : ℚ) ∧ b.min.y ≤ (p.y : ℚ) ∧ b.min.z ≤ (p.z : ℚ) ∧
  (p.x : ℚ) ≤ b.max.x ∧ (p.y : ℚ) ≤ b.max.y ∧ (p.z : ℚ) ≤ b.max.z

theorem bounds_insert_min_le_self (b : Aabb3d) (p : IVec3) :
    (bounds_insert b p).min.x ≤ b.min.x ∧ (bounds_insert b p).min.y ≤ b.min.y ∧
    (bounds_insert b p).min.z ≤ b.min.z := by
  unfold bounds_insert comp_min vec3_of_ivec
  dsimp only
  split_ifs <;> simp [min_le_right]

theorem bounds_insert_min_le_point (b : Aabb3d) (p : IVec3) :
    (bounds_insert b p).min.x ≤ (p.x : ℚ) ∧ (bounds_insert b p).min.y ≤ (p.y : ℚ) ∧
    (bounds_insert b p).min.z ≤ (p.z : ℚ) := by
  unfold bounds_insert comp_min vec3_of_ivec
  dsimp only
  split_ifs with h1 h2
  · simp [min_le_left]
  · push_neg at h1
    exact ⟨h1.1, h1.2.1, h1.2.2⟩
  · push_neg at h1
    exact ⟨h1.1, h1.2.1, h1.2.2⟩

theorem foldl_insert_min_le (l : List (IVec3 × Core.ChunkData)) :
    ∀ st : ChunkMapData,
      ((l.foldl insert_chunk st).bounds.min.x ≤ st.bounds.min.x ∧
       (l.foldl insert_chunk st).bounds.min.y ≤ st.bounds.min.y ∧
       (l.foldl insert_chunk st).bounds.min.z ≤ st.bounds.min.z) := by
  induction l with
  | nil => intro st; exact ⟨le_refl _, le_refl _, le_refl _⟩
  | cons a t ih =>
    intro st
    have h1 := ih (insert_chunk st a)
    have h2 := bounds_insert_min_le_self st.bounds a.1
    rw [List.foldl_cons]
    exact ⟨le_trans h1.1 h2.1, le_trans h1.2.1 h2.2.1, le_trans h1.2.2 h2.2.2⟩

theorem foldl_insert_min_le_mem (l : List (IVec3 × Core.ChunkData)) :
    ∀ (st : ChunkMapData) (pc : IVec3 × Core.ChunkData), pc ∈ l →
      ((l.foldl insert_chunk st).bounds.min.x ≤ (pc.1.x : ℚ) ∧
       (l.foldl insert_chunk st).bounds.min.y ≤ (pc.1.y : ℚ) ∧
       (l.foldl insert_chunk st).bounds.min.z ≤ (pc.1.z : ℚ)) := by
  induction l with
  | nil => intro st pc hpc; cases hpc
  | cons a t ih =>
    intro st pc hpc
    rw [List.foldl_cons]
    rcases List.mem_cons.mp hpc with rfl | hpc
    · have h1 := foldl_insert_min_le t (insert_chunk st pc)
      have h2 := bounds_insert_min_le_point st.bounds pc.1
      exact ⟨le_trans h1.1 h2.1, le_trans h1.2.1 h2.2.1, le_trans h1.2.2 h2.2.2⟩
    · exact ih (insert_chunk st a) pc hpc

theorem foldl_overwrite_eq_getLast (l : List IVec3) (f : IVec3 → Bool) :
    ∀ b : Bool, l.foldl (fun _ p => f p) b =
      (match l.getLast? with | none => b | some p => f p) := by
  induction l with
  | nil => intro b; rfl
  | cons a t ih =>
    intro b
    rw [List.foldl_cons, ih (f a)]
    cases t with
    | nil => simp
    | cons h2 t2 =>
      rcases hq : (h2 :: t2).getLast? with _ | q
      · exact absurd hq (by simp)
      · simp [List.getLast?_cons_cons, hq]

end ChunkMapNS

/-- Claim C8 counterexample: starting from the default map (zero bounds, empty
store), inserting the single chunk (-1, 5, 0) leaves a map entry whose
coordinate is not contained in the resulting bounds — the coordinate is below
the min on the x axis and above the max on the y axis, and the `else if` in
`apply_buffers` then only lowers the min, leaving `max.y = 0 < 5`. -/
theorem C8_counterexample_containment :
    ChunkMapNS.map_contains
      (ChunkMapNS.apply_buffers ⟨[], ⟨⟨0, 0, 0⟩, ⟨0, 0, 0⟩⟩⟩
        [(⟨-1, 5, 0⟩, Core.ChunkData.new)] [] []).data ⟨-1, 5, 0⟩ = true ∧
    ¬ ChunkMapNS.aabb_contains
      (ChunkMapNS.apply_buffers ⟨[], ⟨⟨0, 0, 0⟩, ⟨0, 0, 0⟩⟩⟩
        [(⟨-1, 5, 0⟩, Core.ChunkData.new)] [] []).bounds ⟨-1, 5, 0⟩ := by
  constructor
  · norm_num [ChunkMapNS.apply_buffers, ChunkMapNS.insert_chunk, ChunkMapNS.map_insert,
      ChunkMapNS.map_contains, ChunkMapNS.bounds_insert, ChunkMapNS.vec3_of_ivec,
      ChunkMapNS.comp_min, ChunkMapNS.comp_max]
  · norm_num [ChunkMapNS.apply_buffers, ChunkMapNS.insert_chunk, ChunkMapNS.map_insert,
      ChunkMapNS.aabb_contains, ChunkMapNS.bounds_insert, ChunkMapNS.vec3_of_ivec,
      ChunkMapNS.comp_min, ChunkMapNS.comp_max]

/-- Claim C8 as amended: after `apply_buffers`, (1) the data store is the
removal fold over the insert/update fold; (2) every inserted or updated
coordinate is bounded below by the resulting min on every axis (containment
from above can fail, as the counterexample shows, because a coordinate below
the min on one axis and above the max on another only lowers the min); (3) the
bounds are fully recomputed from the remaining keys exactly when the *last*
coordinate of the removal buffer equals the floored min or floored max corner
of the bounds as they stood after the inserts. -/
theorem C8_amended_bounds_maintenance (st : ChunkMapNS.ChunkMapData)
    (insert_buffer update_buffer : List (IVec3 × Core.ChunkData))
    (remove_buffer : List IVec3)
    (hne : ¬(insert_buffer = [] ∧ update_buffer = [] ∧ remove_buffer = [])) :
    ((ChunkMapNS.apply_buffers st insert_buffer update_buffer remove_buffer).data =
      remove_buffer.foldl (fun d p => ChunkMapNS.map_remove d p)
        ((insert_buffer ++ update_buffer).foldl ChunkMapNS.insert_chunk st).data) ∧
    (∀ pc ∈ insert_buffer ++ update_buffer,
      ((ChunkMapNS.apply_buffers st insert_buffer update_buffer remove_buffer).data =
          remove_buffer.foldl (fun d p => ChunkMapNS.map_remove d p)
            ((insert_buffer ++ update_buffer).foldl ChunkMapNS.insert_chunk st).data) ∧
      (((insert_buffer ++ update_buffer).foldl ChunkMapNS.insert_chunk st).bounds.min.x
          ≤ (pc.1.x : ℚ) ∧
       ((insert_buffer ++ update_buffer).foldl ChunkMapNS.insert_chunk st).bounds.min.y
          ≤ (pc.1.y : ℚ) ∧
       ((insert_buffer ++ update_buffer).foldl ChunkMapNS.insert_chunk st).bounds.min.z
          ≤ (pc.1.z : ℚ))) ∧
    ((ChunkMapNS.apply_buffers st insert_buffer update_buffer remove_buffer).bounds =
      (match remove_buffer.getLast? with
       | none => ((insert_buffer ++ update_buffer).foldl ChunkMapNS.insert_chunk st).bounds
       | some p =>
         if (ChunkMapNS.floor_ivec
              ((insert_buffer ++ update_buffer).foldl ChunkMapNS.insert_chunk st).bounds.min = p)
            ∨ (ChunkMapNS.floor_ivec
              ((insert_buffer ++ update_buffer).foldl ChunkMapNS.insert_chunk st).bounds.max = p)
         then ChunkMapNS.from_point_cloud
            ((remove_buffer.foldl (fun d p => ChunkMapNS.map_remove d p)
              ((insert_buffer ++ update_buffer).foldl ChunkMapNS.insert_chunk st).data).map
                (fun kv => ChunkMapNS.vec3_of_ivec kv.1))
         else ((insert_buffer ++ update_buffer).foldl ChunkMapNS.insert_chunk st).bounds)) := by
  have hrebuild := ChunkMapNS.foldl_overwrite_eq_getLast remove_buffer
    (fun p =>
      decide (ChunkMapNS.floor_ivec
        ((insert_buffer ++ update_buffer).foldl ChunkMapNS.insert_chunk st).bounds.min = p) ||
      decide (ChunkMapNS.floor_ivec
        ((insert_buffer ++ update_buffer).foldl ChunkMapNS.insert_chunk st).bounds.max = p))
    false
  refine ⟨?_, ?_, ?_⟩
  · unfold ChunkMapNS.apply_buffers
    rw [if_neg hne]
    dsimp only
    split_ifs <;> rfl
  · intro pc hpc
    refine ⟨?_, ChunkMapNS.foldl_insert_min_le_mem _ st pc hpc⟩
    unfold ChunkMapNS.apply_buffers
    rw [if_neg hne]
    dsimp only
    split_ifs <;> rfl
  · unfold ChunkMapNS.apply_buffers
    rw [if_neg hne]
    dsimp only
    rw [hrebuild]
    rcases remove_buffer.getLast? with _ | p
    · rw [if_neg (by simp)]
    · dsimp only
      split_ifs with h1 h2
      · rfl
      · exfalso
        simp_all
      · exfalso
        simp_all
      · rfl

/-- Concrete insert buffer used by the C8 witness. -/
def c8_ins : List (IVec3 × Core.ChunkData) := [(⟨-1, 5, 0⟩, Core.ChunkData.new)]

/-- Concrete removal buffer used by the C8 witness. -/
def c8_rem : List IVec3 := [⟨2, 2, 2⟩]

/-- Concrete starting map state used by the C8 witness (the default map). -/
def c8_st0 : ChunkMapNS.ChunkMapData := ⟨[], ⟨⟨0, 0, 0⟩, ⟨0, 0, 0⟩⟩⟩

/-- Witness for C8: one insert and one removal, applied to the default map. -/
theorem C8_amended_bounds_maintenance_witness :
    (¬(c8_ins = [] ∧ ([] : List (IVec3 × Core.ChunkData)) = [] ∧ c8_rem = [])) ∧
    (((ChunkMapNS.apply_buffers c8_st0 c8_ins [] c8_rem).data =
      c8_rem.foldl (fun d p => ChunkMapNS.map_remove d p)
        ((c8_ins ++ []).foldl ChunkMapNS.insert_chunk c8_st0).data) ∧
    (∀ pc ∈ c8_ins ++ [],
      ((ChunkMapNS.apply_buffers c8_st0 c8_ins [] c8_rem).data =
          c8_rem.foldl (fun d p => ChunkMapNS.map_remove d p)
            ((c8_ins ++ []).foldl ChunkMapNS.insert_chunk c8_st0).data) ∧
      (((c8_ins ++ []).foldl ChunkMapNS.insert_chunk c8_st0).bounds.min.x ≤ (pc.1.x : ℚ) ∧
       ((c8_ins ++ []).foldl ChunkMapNS.insert_chunk c8_st0).bounds.min.y ≤ (pc.1.y : ℚ) ∧
       ((c8_ins ++ []).foldl ChunkMapNS.insert_chunk c8_st0).bounds.min.z ≤ (pc.1.z : ℚ))) ∧
    ((ChunkMapNS.apply_buffers c8_st0 c8_ins [] c8_rem).bounds =
      (match c8_rem.getLast? with
       | none => ((c8_ins ++ []).foldl ChunkMapNS.insert_chunk c8_st0).bounds
       | some p =>
         if (ChunkMapNS.floor_ivec
              ((c8_ins ++ []).foldl ChunkMapNS.insert_chunk c8_st0).bounds.min = p)
            ∨ (ChunkMapNS.floor_ivec
              ((c8_ins ++ []).foldl ChunkMapNS.insert_chunk c8_st0).bounds.max = p)
         then ChunkMapNS.from_point_cloud
            ((c8_rem.foldl (fun d p => ChunkMapNS.map_remove d p)
              ((c8_ins ++ []).foldl ChunkMapNS.insert_chunk c8_st0).data).map
                (fun kv => ChunkMapNS.vec3_of_ivec kv.1))
         else ((c8_ins ++ []).foldl ChunkMapNS.insert_chunk c8_st0).bounds))) :=
  ⟨by simp [c8_ins, c8_rem],
   C8_amended_bounds_maintenance c8_st0 c8_ins [] c8_rem (by simp [c8_ins, c8_rem])⟩

namespace Traversal

/-!
Model of `voxel_traversal.rs`: `voxel_cartesian_traversal` (lines 7-34) and
`voxel_line_traversal` (lines 95-193), cited by claims C3, C6 and C10.

The `f32` values of the line traversal are modelled as exact rationals extended
with a positive infinity point `XRat.inf`, which arises exactly where the
source produces an IEEE `+inf`: the reciprocal of a `+0.0` ray-direction
component (`recip`), and everything downstream of it (`delta_t`, `max_t`).
The ray length `end_t = ray.length()` involves a square root, so it is passed
as a parameter; the theorems pin it down with `end_t > 0` and
`end_t * end_t = ray.dotSelf` (exactly the properties of the `f32` length when
the square root is exact).  No `NaN` value exists in the model; under the
hypothesis `end_t > 0` the source computes no `NaN` either, as the theorems
make precise by showing every reported time is a finite rational.
-/

/-- Model of `VOXEL_SIZE` from `voxel.rs`. -/
def VOXEL_SIZE : ℚ := 1

/-- Rational numbers extended with the IEEE positive infinity. -/
inductive XRat where
  | fin (q : ℚ)
  | inf
deriving DecidableEq

/-- Strict comparison (`f32 <`); `inf < inf` is false. -/
def XRat.blt : XRat → XRat → Bool
  | .fin a, .fin b => decide (a < b)
  | .fin _, .inf => true
  | .inf, _ => false

/-- Addition; any sum involving `inf` is `inf` (IEEE `fin + inf = inf`). -/
def XRat.add : XRat → XRat → XRat
  | .fin a, .fin b => .fin (a + b)
  | _, _ => .inf

/-- Multiplication by a finite scalar on the right; used only with a positive
scalar (`r_end_t = 1/end_t`), for which IEEE gives `inf * r = inf`. -/
def XRat.scaleBy (r : ℚ) : XRat → XRat
  | .fin a => .fin (a * r)
  | .inf => .inf

/-- Absolute value; `|inf| = inf`. -/
def XRat.absX : XRat → XRat
  | .fin a => .fin |a|
  | .inf => .inf

/-- Minimum (`f32::min`). -/
def XRat.minX : XRat → XRat → XRat
  | .fin a, .fin b => .fin (min a b)
  | .fin a, .inf => .fin a
  | .inf, y => y

/-- Multiplication of a finite scalar with a possibly infinite value.  In the
traversal the `inf` branch is reached only with a positive scalar (the distance
from `start` to the next boundary plane in step direction), where IEEE gives
`+inf`. -/
def xmul (q : ℚ) : XRat → XRat
  | .fin b => .fin (q * b)
  | .inf => .inf

/-- Model of `f32::recip`: the reciprocal, with `recip(+0.0) = +inf`.  In exact
arithmetic a zero ray component is always `+0.0`, never `-0.0`. -/
def recipX (q : ℚ) : XRat := if q = 0 then .inf else .fin (1 / q)

/-- Model of `f32::signum` for non-`NaN` inputs: `-1` for negatives, `1`
otherwise (including `+0.0`). -/
def rust_signum (q : ℚ) : ℤ := if q < 0 then -1 else 1

/-- Componentwise floor to an integer vector (`Vec3::floor().as_ivec3()`). -/
def floor_vec (v : Vec3) : IVec3 := ⟨ratFloor v.x, ratFloor v.y, ratFloor v.z⟩

/-- Per-axis `max_t` triple. -/
structure XVec3 where
  x : XRat
  y : XRat
  z : XRat
deriving DecidableEq

/-- One call made to the visitor: voxel, normalized time, entry face. -/
structure Visit where
  voxel : IVec3
  time : XRat
  face : VoxelFace
deriving DecidableEq

/-- Result of one iteration of the traversal loop body: the visit that would
be reported, the advanced voxel and `max_t`, and the `reached_end` flag. -/
structure StepOut where
  visit : Visit
  voxel : IVec3
  max_t : XVec3
  reached_end : Bool
deriving DecidableEq

/-- One iteration of the `while` loop body of `voxel_line_traversal` (lines
163-187): advance along the axis with the strictly smallest `max_t` (the `x`
branch needs strict inequality over both others, the `y` branch over `z`, and
`z` is the fallback), report that axis's face and the crossing time, and flag
`reached_end` when the voxel moved past `out_of_bounds` on that axis. -/
def voxel_line_step (stepv oob : IVec3) (delta_t : XVec3) (r_end_t : ℚ)
    (x_face y_face z_face : VoxelFace) (voxel : IVec3) (max_t : XVec3) : StepOut :=
  if (max_t.x.blt max_t.y) && (max_t.x.blt max_t.z) then
    let voxel2 : IVec3 := ⟨voxel.x + stepv.x, voxel.y, voxel.z⟩
    ⟨⟨voxel2, max_t.x.scaleBy r_end_t, x_face⟩, voxel2,
     ⟨max_t.x.add delta_t.x, max_t.y, max_t.z⟩, decide (voxel2.x = oob.x)⟩
  else if max_t.y.blt max_t.z then
    let voxel2 : IVec3 := ⟨voxel.x, voxel.y + stepv.y, voxel.z⟩
    ⟨⟨voxel2, max_t.y.scaleBy r_end_t, y_face⟩, voxel2,
     ⟨max_t.x, max_t.y.add delta_t.y, max_t.z⟩, decide (voxel2.y = oob.y)⟩
  else
    let voxel2 : IVec3 := ⟨voxel.x, voxel.y, voxel.z + stepv.z⟩
    ⟨⟨voxel2, max_t.z.scaleBy r_end_t, z_face⟩, voxel2,
     ⟨max_t.x, max_t.y, max_t.z.add delta_t.z⟩, decide (voxel2.z = oob.z)⟩

/-- The `while keep_going && !reached_end` loop of `voxel_line_traversal`
(lines 162-192), with one fuel unit per iteration.  After each step the loop
stops without a visit when `reached_end` is set; otherwise the visit happens
and the loop continues while the visitor returns true. -/
def voxel_line_loop (vis : IVec3 → XRat → VoxelFace → Bool) (stepv oob : IVec3)
    (delta_t : XVec3) (r_end_t : ℚ) (x_face y_face z_face : VoxelFace) :
    ℕ → IVec3 → XVec3 → List Visit
  | 0, _, _ => []
  | Nat.succ fuel, voxel, max_t =>
    let s := voxel_line_step stepv oob delta_t r_end_t x_face y_face z_face voxel max_t
    if s.reached_end then []
    else if vis s.visit.voxel s.visit.time s.visit.face then
      s.visit :: voxel_line_loop vis stepv oob delta_t r_end_t x_face y_face z_face
        fuel s.voxel s.max_t
    else [s.visit]

/-- The initial per-axis `max_t` (lines 114-136): `end_t` for a zero step
(dead branch, since `signum` never returns 0 on non-`NaN` input), otherwise the
signed distance from `start` to the next boundary plane in step direction,
scaled by the reciprocal ray direction. -/
def axis_init_max_t (stepa : ℤ) (start_voxela : ℤ) (starta : ℚ) (r : XRat) (end_t : ℚ) :
    XRat :=
  if stepa = 0 then .fin end_t
  else
    let o : ℤ := if 0 < stepa then 1 else 0
    let plane : ℚ := ((start_voxela + o : ℤ) : ℚ) * VOXEL_SIZE
    xmul (plane - starta) r

/-- The ray `end - start` of `voxel_line_traversal`. -/
def ray_of (start end_ : Vec3) : Vec3 := end_.sub start

/-- The normalized ray direction `ray / end_t`. -/
def ray_dir_of (start end_ : Vec3) (end_t : ℚ) : Vec3 := (ray_of start end_).divScalar end_t

/-- The reciprocal ray direction `ray_dir.recip()`; a zero component gives `+inf`. -/
def r_ray_dir_of (start end_ : Vec3) (end_t : ℚ) : XVec3 :=
  ⟨recipX (ray_dir_of start end_ end_t).x, recipX (ray_dir_of start end_ end_t).y,
   recipX (ray_dir_of start end_ end_t).z⟩

/-- `delta_t = (VOXEL_SIZE * r_ray_dir).abs()`. -/
def delta_t_of (start end_ : Vec3) (end_t : ℚ) : XVec3 :=
  ⟨(xmul VOXEL_SIZE (r_ray_dir_of start end_ end_t).x).absX,
   (xmul VOXEL_SIZE (r_ray_dir_of start end_ end_t).y).absX,
   (xmul VOXEL_SIZE (r_ray_dir_of start end_ end_t).z).absX⟩

/-- `step = ray_dir.signum().as_ivec3()`. -/
def step_of (start end_ : Vec3) (end_t : ℚ) : IVec3 :=
  ⟨rust_signum (ray_dir_of start end_ end_t).x, rust_signum (ray_dir_of start end_ end_t).y,
   rust_signum (ray_dir_of start end_ end_t).z⟩

/-- The initial `max_t` triple (lines 112-136). -/
def max_t0_of (start end_ : Vec3) (end_t : ℚ) : XVec3 :=
  ⟨axis_init_max_t (step_of start end_ end_t).x (floor_vec start).x start.x
      (r_ray_dir_of start end_ end_t).x end_t,
   axis_init_max_t (step_of start end_ end_t).y (floor_vec start).y start.y
      (r_ray_dir_of start end_ end_t).y end_t,
   axis_init_max_t (step_of start end_ end_t).z (floor_vec start).z start.z
      (r_ray_dir_of start end_ end_t).z end_t⟩

/-- The time passed to the very first visitor call:
`max_t.min_element() * r_end_t` (line 139). -/
def time0_of (start end_ : Vec3) (end_t : ℚ) : XRat :=
  ((max_t0_of start end_ end_t).x.minX
    ((max_t0_of start end_ end_t).y.minX (max_t0_of start end_ end_t).z)).scaleBy (1 / end_t)

/-- `out_of_bounds = end_voxel + step` (line 142). -/
def oob_of (start end_ : Vec3) (end_t : ℚ) : IVec3 :=
  (floor_vec end_).add (step_of start end_ end_t)

/-- The x entry face: `Left` when stepping in +x, else `Right` (lines 146-150). -/
def x_face_of (start end_ : Vec3) (end_t : ℚ) : VoxelFace :=
  if 0 < (step_of start end_ end_t).x then .Left else .Right

/-- The y entry face: `Bottom` when stepping in +y, else `Top` (lines 151-155). -/
def y_face_of (start end_ : Vec3) (end_t : ℚ) : VoxelFace :=
  if 0 < (step_of start end_ end_t).y then .Bottom else .Top

/-- The z entry face: `Back` when stepping in +z, else `Forward` (lines 156-160). -/
def z_face_of (start end_ : Vec3) (end_t : ℚ) : VoxelFace :=
  if 0 < (step_of start end_ end_t).z then .Back else .Forward

/-- Model of `voxel_line_traversal`.  `end_t` abstracts `ray.length()` (see the
namespace comment); `fuel` bounds the loop iterations, which the theorems
quantify over.  Returns the sequence of visitor calls in order: the start voxel
is always visited first, with the `min_element` time and no face; the loop then
runs while the visitor keeps returning true and the end voxel has not been
reached (`reached_end` is true immediately when start and end share a voxel). -/
def voxel_line_traversal (vis : IVec3 → XRat → VoxelFace → Bool) (start end_ : Vec3)
    (end_t : ℚ) (fuel : ℕ) : List Visit :=
  ⟨floor_vec start, time0_of start end_ end_t, .None⟩ ::
    (if vis (floor_vec start) (time0_of start end_ end_t) .None &&
        !(decide (floor_vec start = floor_vec end_)) then
      voxel_line_loop vis (step_of start end_ end_t) (oob_of start end_ end_t)
        (delta_t_of start end_ end_t) (1 / end_t) (x_face_of start end_ end_t)
        (y_face_of start end_ end_t) (z_face_of start end_ end_t) fuel
        (floor_vec start) (max_t0_of start end_ end_t)
    else [])

/-- The `for d in 0..distance` loop of `voxel_cartesian_traversal`, visiting
`start + direction * d` and stopping after the first `false` from the visitor. -/
def voxel_cartesian_loop (vis : IVec3 → Bool) (start direction : IVec3) :
    ℕ → ℕ → List IVec3
  | _, 0 => []
  | d, Nat.succ n =>
    let p : IVec3 :=
      ⟨start.x + direction.x * (d : ℤ), start.y + direction.y * (d : ℤ),
       start.z + direction.z * (d : ℤ)⟩
    if vis p then p :: voxel_cartesian_loop vis start direction (d + 1) n else [p]

/-- Model of `voxel_cartesian_traversal` (lines 7-34): `distance` is the
largest absolute component of `end - start`, `direction` the componentwise
truncating `i32` division by it (the source panics when `distance = 0`; the
claims presuppose one non-zero component). -/
def voxel_cartesian_traversal (vis : IVec3 → Bool) (start end_ : IVec3) : List IVec3 :=
  let delta := end_.sub start
  let distance : ℤ := max |delta.x| (max |delta.y| |delta.z|)
  let direction : IVec3 :=
    ⟨Int.tdiv delta.x distance, Int.tdiv delta.y distance, Int.tdiv delta.z distance⟩
  voxel_cartesian_loop vis start direction 0 distance.toNat

/-- Exactly one component of `d` is non-zero (the `debug_assert` of the
source, and the hypothesis of claim C10). -/
def exactly_one_axis (d : IVec3) : Prop :=
  (d.x ≠ 0 ∧ d.y = 0 ∧ d.z = 0) ∨ (d.x = 0 ∧ d.y ≠ 0 ∧ d.z = 0) ∨
  (d.x = 0 ∧ d.y = 0 ∧ d.z ≠ 0)

/-- The unit direction of the claim: the componentwise sign of `end - start`. -/
def unit_dir (d : IVec3) : IVec3 := ⟨Int.sign d.x, Int.sign d.y, Int.sign d.z⟩

/-- The voxel path asserted by claim C10: `start + k * unit_dir` for
`k = 0, …, distance - 1` (`end` excluded). -/
def claim_path (start end_ : IVec3) : List IVec3 :=
  let delta := end_.sub start
  let distance : ℤ := max |delta.x| (max |delta.y| |delta.z|)
  (List.range distance.toNat).map (fun k : ℕ =>
    ⟨start.x + (unit_dir delta).x * (k : ℤ), start.y + (unit_dir delta).y * (k : ℤ),
     start.z + (unit_dir delta).z * (k : ℤ)⟩)

/-- Prefix of a list up to and including the first element rejected by the
visitor (the early-stop behaviour of the traversal loops). -/
def take_until_stop (vis : IVec3 → Bool) : List IVec3 → List IVec3
  | [] => []
  | p :: rest => if vis p then p :: take_until_stop vis rest else [p]

theorem voxel_cartesian_loop_eq (vis : IVec3 → Bool) (start direction : IVec3) :
    ∀ (n d : ℕ),
      voxel_cartesian_loop vis start direction d n =
        take_until_stop vis ((List.range n).map (fun k =>
          ⟨start.x + direction.x * ((d + k : ℕ) : ℤ),
           start.y + direction.y * ((d + k : ℕ) : ℤ),
           start.z + direction.z * ((d + k : ℕ) : ℤ)⟩)) := by
  intro n
  induction n with
  | zero => intro d; rfl
  | succ m ih =>
    intro d
    rw [voxel_cartesian_loop, List.range_succ_eq_map, List.map_cons, take_until_stop]
    simp only [Nat.add_zero, List.map_map]
    by_cases hv : vis ⟨start.x + direction.x * (d : ℤ), start.y + direction.y * (d : ℤ),
        start.z + direction.z * (d : ℤ)⟩
    · rw [if_pos hv, if_pos hv, ih (d + 1)]
      have hmap : List.map (fun k : ℕ =>
            (⟨start.x + direction.x * ((d + 1 + k : ℕ) : ℤ),
              start.y + direction.y * ((d + 1 + k : ℕ) : ℤ),
              start.z + direction.z * ((d + 1 + k : ℕ) : ℤ)⟩ : IVec3)) (List.range m) =
          List.map ((fun k : ℕ =>
            (⟨start.x + direction.x * ((d + k : ℕ) : ℤ),
              start.y + direction.y * ((d + k : ℕ) : ℤ),
              start.z + direction.z * ((d + k : ℕ) : ℤ)⟩ : IVec3)) ∘ Nat.succ)
            (List.range m) := by
        apply List.map_congr_left
        intro k _
        have hc : d + 1 + k = d + (k + 1) := by omega
        simp [Function.comp, hc]
      rw [hmap]
    · rw [if_neg hv, if_neg hv]

end Traversal

namespace Traversal

theorem ratFloor_le (q : ℚ) : (ratFloor q : ℚ) ≤ q := by
  rw [ratFloor_eq_floor]
  exact Int.floor_le q

theorem lt_ratFloor_add_one (q : ℚ) : q < (ratFloor q : ℚ) + 1 := by
  rw [ratFloor_eq_floor]
  exact_mod_cast Int.lt_floor_add_one q

theorem ratFloor_mono {a b : ℚ} (h : a ≤ b) : ratFloor a ≤ ratFloor b := by
  rw [ratFloor_eq_floor, ratFloor_eq_floor]
  exact Int.floor_le_floor h

/-- Loop invariant for one axis of the traversal: writing `ra = ea - sa` for
the ray component, a zero component keeps `max_t` infinite and the voxel
coordinate fixed at the start voxel; a non-zero component keeps `max_t` equal
to the crossing time of the next boundary plane in step direction from the
current voxel coordinate, which stays between the start and end voxel
coordinates. -/
def AxisInv (sa ea end_t : ℚ) (va : ℤ) (ma : XRat) : Prop :=
  ((ea - sa = 0) → (ma = .inf ∧ va = ratFloor sa)) ∧
  ((0 < ea - sa) → (ma = .fin (((va : ℚ) + 1 - sa) * (end_t / (ea - sa))) ∧
     ratFloor sa ≤ va ∧ va ≤ ratFloor ea)) ∧
  ((ea - sa < 0) → (ma = .fin (((va : ℚ) - sa) * (end_t / (ea - sa))) ∧
     ratFloor ea ≤ va ∧ va ≤ ratFloor sa))

theorem AxisInv.ne_inf {sa ea end_t : ℚ} {va : ℤ} {ma : XRat}
    (h : AxisInv sa ea end_t va ma) (hne : ma ≠ .inf) : ea - sa ≠ 0 := by
  intro h0
  exact hne (h.1 h0).1

theorem AxisInv.inf_zero {sa ea end_t : ℚ} {va : ℤ} {ma : XRat}
    (h : AxisInv sa ea end_t va ma) (hinf : ma = .inf) : ea - sa = 0 := by
  rcases lt_trichotomy (ea - sa) 0 with hlt | heq | hgt
  · exact absurd ((h.2.2 hlt).1 ▸ hinf) (by simp)
  · exact heq
  · exact absurd ((h.2.1 hgt).1 ▸ hinf) (by simp)

theorem recipX_div_eq {ra end_t : ℚ} (hT : end_t ≠ 0) (hra : ra ≠ 0) :
    recipX (ra / end_t) = .fin (end_t / ra) := by
  rw [recipX, if_neg (div_ne_zero hra hT)]
  congr 1
  field_simp

theorem rust_signum_div_pos {ra end_t : ℚ} (hT : 0 < end_t) (hra : 0 < ra) :
    rust_signum (ra / end_t) = 1 := by
  rw [rust_signum, if_neg]
  push_neg
  positivity

theorem rust_signum_div_neg {ra end_t : ℚ} (hT : 0 < end_t) (hra : ra < 0) :
    rust_signum (ra / end_t) = -1 := by
  rw [rust_signum, if_pos]
  exact div_neg_of_neg_of_pos hra hT

theorem rust_signum_div_zero {ra end_t : ℚ} (hra : ra = 0) :
    rust_signum (ra / end_t) = 1 := by
  rw [rust_signum, if_neg]
  simp [hra]

/-- The initial `max_t` of an axis establishes the axis invariant at the start
voxel. -/
theorem axis_init_inv (sa ea end_t : ℚ) (hT : 0 < end_t) :
    AxisInv sa ea end_t (ratFloor sa)
      (axis_init_max_t (rust_signum ((ea - sa) / end_t)) (ratFloor sa) sa
        (recipX ((ea - sa) / end_t)) end_t) := by
  rcases lt_trichotomy (ea - sa) 0 with hlt | heq | hgt
  · refine ⟨fun h0 => absurd h0 hlt.ne, fun hgt' => absurd hgt' (by linarith), fun _ => ?_⟩
    rw [axis_init_max_t, rust_signum_div_neg hT hlt, if_neg (by norm_num),
      recipX_div_eq hT.ne' hlt.ne]
    refine ⟨?_, ratFloor_mono (by linarith), le_refl _⟩
    rw [if_neg (by norm_num)]
    simp only [xmul]
    congr 1
    push_cast
    rw [VOXEL_SIZE]
    ring
  · have hs : rust_signum ((ea - sa) / end_t) = 1 := rust_signum_div_zero heq
    refine ⟨fun _ => ?_, fun hgt' => absurd hgt' (by rw [heq]; norm_num),
      fun hlt' => absurd hlt' (by rw [heq]; norm_num)⟩
    rw [axis_init_max_t, hs, if_neg (by norm_num)]
    constructor
    · have hz : (ea - sa) / end_t = 0 := by rw [heq, zero_div]
      rw [hz, recipX, if_pos rfl]
      rfl
    · rfl
  · refine ⟨fun h0 => absurd h0 hgt.ne', fun _ => ?_, fun hlt' => absurd hlt' (by linarith)⟩
    rw [axis_init_max_t, rust_signum_div_pos hT hgt, if_neg (by norm_num),
      recipX_div_eq hT.ne' hgt.ne']
    refine ⟨?_, le_refl _, ratFloor_mono (by linarith)⟩
    rw [if_pos (by norm_num)]
    simp only [xmul]
    congr 1
    push_cast
    rw [VOXEL_SIZE]
    ring

end Traversal

namespace Traversal

/-- Advancing along an axis with a non-zero ray component, without passing
`out_of_bounds`: the reported crossing time is a finite rational in `[0, 1]`,
and the axis invariant is re-established at the advanced voxel coordinate. -/
theorem axis_advance (sa ea end_t : ℚ) (va : ℤ) (ma : XRat) (hT : 0 < end_t)
    (hinv : AxisInv sa ea end_t va ma) (hra : ea - sa ≠ 0)
    (hnoob : va ≠ ratFloor ea) :
    (∃ q, ma.scaleBy (1 / end_t) = .fin q ∧ 0 ≤ q ∧ q ≤ 1) ∧
    AxisInv sa ea end_t (va + rust_signum ((ea - sa) / end_t))
      (ma.add ((xmul VOXEL_SIZE (recipX ((ea - sa) / end_t))).absX)) := by
  rcases hra.lt_or_lt with hlt | hgt
  · -- negative ray component: step is -1, the crossed plane is the voxel ceiling
    obtain ⟨hma, hlow, hhigh⟩ := hinv.2.2 hlt
    have hvlow : ratFloor ea + 1 ≤ va := by
      rcases lt_or_eq_of_le hlow with h | h
      · omega
      · exact absurd h.symm hnoob
    have hstep := rust_signum_div_neg hT hlt
    have hrdelta : ((xmul VOXEL_SIZE (recipX ((ea - sa) / end_t))).absX) =
        .fin (-(end_t / (ea - sa))) := by
      rw [recipX_div_eq hT.ne' hlt.ne]
      simp only [xmul, XRat.absX, VOXEL_SIZE, one_mul]
      congr 1
      rw [abs_of_neg (div_neg_of_pos_of_neg hT hlt)]
    constructor
    · refine ⟨((va : ℚ) - sa) * (end_t / (ea - sa)) * (1 / end_t), by rw [hma]; rfl, ?_, ?_⟩
      · have h1 : (va : ℚ) - sa ≤ 0 := by
          have := ratFloor_le sa
          have hcast : (va : ℚ) ≤ (ratFloor sa : ℚ) := by exact_mod_cast hhigh
          linarith
        have h2 : end_t / (ea - sa) < 0 := div_neg_of_pos_of_neg hT hlt
        have h3 : 0 ≤ ((va : ℚ) - sa) * (end_t / (ea - sa)) := by
          have := mul_nonneg (neg_nonneg.mpr h1) (neg_nonneg.mpr h2.le)
          rw [neg_mul_neg] at this
          exact this
        have h4 : (0 : ℚ) ≤ 1 / end_t := by positivity
        exact mul_nonneg h3 h4
      · have hval : ((va : ℚ) - sa) * (end_t / (ea - sa)) * (1 / end_t) =
            ((va : ℚ) - sa) / (ea - sa) := by
          field_simp
          ring
        rw [hval, ← neg_div_neg_eq, div_le_one (by linarith)]
        have hea : ea < (va : ℚ) := by
          have hcast : (ratFloor ea : ℚ) + 1 ≤ (va : ℚ) := by exact_mod_cast hvlow
          have := lt_ratFloor_add_one ea
          linarith
        linarith
    · rw [hstep, hrdelta, hma]
      refine ⟨fun h0 => absurd h0 hlt.ne, fun hgt' => absurd hgt' (by linarith), fun _ => ?_⟩
      refine ⟨?_, by omega, by omega⟩
      simp only [XRat.add]
      congr 1
      push_cast
      ring
  · -- positive ray component: step is +1, the crossed plane is the next voxel floor
    obtain ⟨hma, hlow, hhigh⟩ := hinv.2.1 hgt
    have hvhigh : va + 1 ≤ ratFloor ea := by omega
    have hstep := rust_signum_div_pos hT hgt
    have hrdelta : ((xmul VOXEL_SIZE (recipX ((ea - sa) / end_t))).absX) =
        .fin (end_t / (ea - sa)) := by
      rw [recipX_div_eq hT.ne' hgt.ne']
      simp only [xmul, XRat.absX, VOXEL_SIZE, one_mul]
      congr 1
      rw [abs_of_pos (by positivity)]
    constructor
    · refine ⟨((va : ℚ) + 1 - sa) * (end_t / (ea - sa)) * (1 / end_t), by rw [hma]; rfl, ?_, ?_⟩
      · have h1 : 0 ≤ (va : ℚ) + 1 - sa := by
          have hcast : (ratFloor sa : ℚ) ≤ (va : ℚ) := by exact_mod_cast hlow
          have := ratFloor_le sa
          have hs := lt_ratFloor_add_one sa
          linarith
        positivity
      · have hval : ((va : ℚ) + 1 - sa) * (end_t / (ea - sa)) * (1 / end_t) =
            ((va : ℚ) + 1 - sa) / (ea - sa) := by
          field_simp
          ring
        rw [hval, div_le_one (by linarith)]
        have hcast : (va : ℚ) + 1 ≤ (ratFloor ea : ℚ) := by exact_mod_cast hvhigh
        have := ratFloor_le ea
        linarith
    · rw [hstep, hrdelta, hma]
      refine ⟨fun h0 => absurd h0 hgt.ne', fun _ => ?_, fun hlt' => absurd hlt' (by linarith)⟩
      refine ⟨?_, by omega, by omega⟩
      simp only [XRat.add]
      congr 1
      push_cast
      ring

end Traversal

namespace Traversal

/-- Loop invariant of the whole traversal state. -/
def LineInv (start end_ : Vec3) (end_t : ℚ) (voxel : IVec3) (max_t : XVec3) : Prop :=
  AxisInv start.x end_.x end_t voxel.x max_t.x ∧
  AxisInv start.y end_.y end_t voxel.y max_t.y ∧
  AxisInv start.z end_.z end_t voxel.z max_t.z

theorem XRat.blt_left_fin {a b : XRat} (h : XRat.blt a b = true) : ∃ q, a = .fin q := by
  cases a with
  | fin q => exact ⟨q, rfl⟩
  | inf => simp [XRat.blt] at h

theorem XRat.blt_fin_inf (q : ℚ) : XRat.blt (.fin q) .inf = true := rfl

theorem ray_zero_absurd (start end_ : Vec3) (end_t : ℚ) (hT : 0 < end_t)
    (hdot : end_t * end_t = (end_.sub start).dotSelf)
    (hx : end_.x - start.x = 0) (hy : end_.y - start.y = 0) (hz : end_.z - start.z = 0) :
    False := by
  have hd : (end_.sub start).dotSelf = 0 := by
    simp [Vec3.dotSelf, Vec3.sub, hx, hy, hz]
  rw [hd] at hdot
  have : end_t = 0 := by nlinarith
  exact absurd this hT.ne'

theorem voxel_line_step_sound (start end_ : Vec3) (end_t : ℚ) (xf yf zf : VoxelFace)
    (hT : 0 < end_t) (hdot : end_t * end_t = (end_.sub start).dotSelf)
    (voxel : IVec3) (max_t : XVec3)
    (hinv : LineInv start end_ end_t voxel max_t)
    (hne : (voxel_line_step (step_of start end_ end_t) (oob_of start end_ end_t)
        (delta_t_of start end_ end_t) (1 / end_t) xf yf zf voxel max_t).reached_end = false) :
    (∃ q, (voxel_line_step (step_of start end_ end_t) (oob_of start end_ end_t)
        (delta_t_of start end_ end_t) (1 / end_t) xf yf zf voxel max_t).visit.time =
          .fin q ∧ 0 ≤ q ∧ q ≤ 1) ∧
    LineInv start end_ end_t
      (voxel_line_step (step_of start end_ end_t) (oob_of start end_ end_t)
        (delta_t_of start end_ end_t) (1 / end_t) xf yf zf voxel max_t).voxel
      (voxel_line_step (step_of start end_ end_t) (oob_of start end_ end_t)
        (delta_t_of start end_ end_t) (1 / end_t) xf yf zf voxel max_t).max_t := by
  obtain ⟨hix, hiy, hiz⟩ := hinv
  by_cases hbx : ((max_t.x.blt max_t.y) && (max_t.x.blt max_t.z)) = true
  · -- x branch
    rw [voxel_line_step, if_pos hbx] at hne ⊢
    obtain ⟨qx, hqx⟩ := XRat.blt_left_fin (Bool.and_elim_left hbx)
    have hrx : end_.x - start.x ≠ 0 := hix.ne_inf (by rw [hqx]; simp)
    have hvne : voxel.x ≠ ratFloor end_.x := by
      intro hcontra
      simp only [StepOut.reached_end, decide_eq_false_iff_not, oob_of, IVec3.add,
        floor_vec] at hne
      exact hne (by rw [hcontra])
    have := axis_advance start.x end_.x end_t voxel.x max_t.x hT hix hrx hvne
    exact ⟨this.1, this.2, hiy, hiz⟩
  · by_cases hby : (max_t.y.blt max_t.z) = true
    · -- y branch
      rw [voxel_line_step, if_neg hbx, if_pos hby] at hne ⊢
      obtain ⟨qy, hqy⟩ := XRat.blt_left_fin hby
      have hry : end_.y - start.y ≠ 0 := hiy.ne_inf (by rw [hqy]; simp)
      have hvne : voxel.y ≠ ratFloor end_.y := by
        intro hcontra
        simp only [StepOut.reached_end, decide_eq_false_iff_not, oob_of, IVec3.add,
          floor_vec] at hne
        exact hne (by rw [hcontra])
      have := axis_advance start.y end_.y end_t voxel.y max_t.y hT hiy hry hvne
      exact ⟨this.1, hix, this.2, hiz⟩
    · -- z branch (fallback)
      rw [voxel_line_step, if_neg hbx, if_neg hby] at hne ⊢
      have hzfin : max_t.z ≠ .inf := by
        intro hzinf
        have hyinf : max_t.y = .inf := by
          cases hy : max_t.y with
          | fin qy => exact absurd (by rw [hy, hzinf]; rfl) hby
          | inf => rfl
        have hxinf : max_t.x = .inf := by
          cases hx : max_t.x with
          | fin qx => exact absurd (by rw [hx, hyinf, hzinf]; rfl) hbx
          | inf => rfl
        exact ray_zero_absurd start end_ end_t hT hdot
          (hix.inf_zero hxinf) (hiy.inf_zero hyinf) (hiz.inf_zero hzinf)
      have hrz : end_.z - start.z ≠ 0 := hiz.ne_inf hzfin
      have hvne : voxel.z ≠ ratFloor end_.z := by
        intro hcontra
        simp only [StepOut.reached_end, decide_eq_false_iff_not, oob_of, IVec3.add,
          floor_vec] at hne
        exact hne (by rw [hcontra])
      have := axis_advance start.z end_.z end_t voxel.z max_t.z hT hiz hrz hvne
      exact ⟨this.1, hix, hiy, this.2⟩

end Traversal

namespace Traversal

theorem voxel_line_step_visit_voxel (stepv oob : IVec3) (delta_t : XVec3) (r_end_t : ℚ)
    (xf yf zf : VoxelFace) (voxel : IVec3) (max_t : XVec3) :
    (voxel_line_step stepv oob delta_t r_end_t xf yf zf voxel max_t).visit.voxel =
      (voxel_line_step stepv oob delta_t r_end_t xf yf zf voxel max_t).voxel := by
  rw [voxel_line_step]
  split_ifs <;> rfl

/-- Every voxel coordinate reported by the invariant sits at the start voxel on
axes with a zero ray component. -/
theorem LineInv.zero_axis_fix {start end_ : Vec3} {end_t : ℚ} {voxel : IVec3} {max_t : XVec3}
    (h : LineInv start end_ end_t voxel max_t) :
    (end_.x - start.x = 0 → voxel.x = ratFloor start.x) ∧
    (end_.y - start.y = 0 → voxel.y = ratFloor start.y) ∧
    (end_.z - start.z = 0 → voxel.z = ratFloor start.z) :=
  ⟨fun hx => (h.1.1 hx).2, fun hy => (h.2.1.1 hy).2, fun hz => (h.2.2.1 hz).2⟩

/-- Soundness of the traversal loop: starting from any state satisfying the
invariant, every visit reports a finite time within `[0, 1]` and a voxel fixed
at the start coordinate on every zero-component axis. -/
theorem voxel_line_loop_sound (start end_ : Vec3) (end_t : ℚ)
    (vis : IVec3 → XRat → VoxelFace → Bool) (xf yf zf : VoxelFace)
    (hT : 0 < end_t) (hdot : end_t * end_t = (end_.sub start).dotSelf) :
    ∀ (fuel : ℕ) (voxel : IVec3) (max_t : XVec3),
      LineInv start end_ end_t voxel max_t →
      ∀ v ∈ voxel_line_loop vis (step_of start end_ end_t) (oob_of start end_ end_t)
          (delta_t_of start end_ end_t) (1 / end_t) xf yf zf fuel voxel max_t,
        (∃ q, v.time = .fin q ∧ 0 ≤ q ∧ q ≤ 1) ∧
        (end_.x - start.x = 0 → v.voxel.x = ratFloor start.x) ∧
        (end_.y - start.y = 0 → v.voxel.y = ratFloor start.y) ∧
        (end_.z - start.z = 0 → v.voxel.z = ratFloor start.z) := by
  intro fuel
  induction fuel with
  | zero =>
    intro voxel max_t _ v hv
    simp [voxel_line_loop] at hv
  | succ n ih =>
    intro voxel max_t hinv v hv
    rw [voxel_line_loop] at hv
    by_cases hre : (voxel_line_step (step_of start end_ end_t) (oob_of start end_ end_t)
        (delta_t_of start end_ end_t) (1 / end_t) xf yf zf voxel max_t).reached_end = true
    · rw [if_pos hre] at hv
      cases hv
    · rw [if_neg hre] at hv
      have hsound := voxel_line_step_sound start end_ end_t xf yf zf hT hdot voxel max_t
        ⟨hinv.1, hinv.2.1, hinv.2.2⟩ (Bool.not_eq_true _ ▸ hre)
      have hvisit :
          (∃ q, (voxel_line_step (step_of start end_ end_t) (oob_of start end_ end_t)
              (delta_t_of start end_ end_t) (1 / end_t) xf yf zf voxel max_t).visit.time =
                .fin q ∧ 0 ≤ q ∧ q ≤ 1) ∧
          (end_.x - start.x = 0 →
            (voxel_line_step (step_of start end_ end_t) (oob_of start end_ end_t)
              (delta_t_of start end_ end_t) (1 / end_t) xf yf zf voxel
                max_t).visit.voxel.x = ratFloor start.x) ∧
          (end_.y - start.y = 0 →
            (voxel_line_step (step_of start end_ end_t) (oob_of start end_ end_t)
              (delta_t_of start end_ end_t) (1 / end_t) xf yf zf voxel
                max_t).visit.voxel.y = ratFloor start.y) ∧
          (end_.z - start.z = 0 →
            (voxel_line_step (step_of start end_ end_t) (oob_of start end_ end_t)
              (delta_t_of start end_ end_t) (1 / end_t) xf yf zf voxel
                max_t).visit.voxel.z = ratFloor start.z) := by
        refine ⟨hsound.1, ?_⟩
        rw [voxel_line_step_visit_voxel]
        exact hsound.2.zero_axis_fix
      split_ifs at hv with hkeep
      · rcases List.mem_cons.mp hv with rfl | hv2
        · exact hvisit
        · exact ih _ _ hsound.2 v hv2
      · rcases List.mem_singleton.mp hv with rfl
        exact hvisit

end Traversal

namespace Traversal

/-- Modelled from the amended claim's words: the normalized time at which the
ray first crosses a voxel boundary on one axis (the next integer plane in ray
direction), with `inf` for an axis whose ray component is zero (it never
crosses). -/
def axis_first_time (sa ea : ℚ) : XRat :=
  if ea - sa = 0 then .inf
  else if 0 < ea - sa then .fin ((((ratFloor sa : ℤ) : ℚ) + 1 - sa) / (ea - sa))
  else .fin ((((ratFloor sa : ℤ) : ℚ) - sa) / (ea - sa))

/-- Modelled from the amended claim's words: the normalized time reported on
the very first visitor call — the minimum over the axes of the first
boundary-crossing time. -/
def spec_first_time (start end_ : Vec3) : XRat :=
  (axis_first_time start.x end_.x).minX
    ((axis_first_time start.y end_.y).minX (axis_first_time start.z end_.z))

theorem XRat.scaleBy_minX (r : ℚ) (hr : 0 < r) (a b : XRat) :
    (a.minX b).scaleBy r = (a.scaleBy r).minX (b.scaleBy r) := by
  cases a with
  | inf => cases b <;> simp [XRat.minX, XRat.scaleBy]
  | fin qa =>
    cases b with
    | inf => simp [XRat.minX, XRat.scaleBy]
    | fin qb =>
      simp only [XRat.minX, XRat.scaleBy, XRat.fin.injEq]
      rcases le_total qa qb with h | h
      · rw [min_eq_left h, min_eq_left (by exact mul_le_mul_of_nonneg_right h hr.le)]
      · rw [min_eq_right h, min_eq_right (by exact mul_le_mul_of_nonneg_right h hr.le)]

theorem axis_init_scaled (sa ea end_t : ℚ) (hT : 0 < end_t) :
    (axis_init_max_t (rust_signum ((ea - sa) / end_t)) (ratFloor sa) sa
        (recipX ((ea - sa) / end_t)) end_t).scaleBy (1 / end_t) =
      axis_first_time sa ea := by
  have hinv := axis_init_inv sa ea end_t hT
  rcases lt_trichotomy (ea - sa) 0 with hlt | heq | hgt
  · obtain ⟨hma, -, -⟩ := hinv.2.2 hlt
    rw [hma, axis_first_time, if_neg hlt.ne, if_neg (by linarith)]
    simp only [XRat.scaleBy, XRat.fin.injEq]
    have h1 : ea - sa ≠ 0 := hlt.ne
    have h2 : end_t ≠ 0 := hT.ne'
    field_simp
    ring
  · obtain ⟨hma, -⟩ := hinv.1 heq
    rw [hma, axis_first_time, if_pos heq]
    rfl
  · obtain ⟨hma, -, -⟩ := hinv.2.1 hgt
    rw [hma, axis_first_time, if_neg hgt.ne', if_pos hgt]
    simp only [XRat.scaleBy, XRat.fin.injEq]
    have h1 : ea - sa ≠ 0 := hgt.ne'
    have h2 : end_t ≠ 0 := hT.ne'
    field_simp
    ring

theorem max_t0_of_x_eq (start end_ : Vec3) (end_t : ℚ) :
    (max_t0_of start end_ end_t).x =
      axis_init_max_t (rust_signum ((end_.x - start.x) / end_t)) (ratFloor start.x) start.x
        (recipX ((end_.x - start.x) / end_t)) end_t := rfl

theorem max_t0_of_y_eq (start end_ : Vec3) (end_t : ℚ) :
    (max_t0_of start end_ end_t).y =
      axis_init_max_t (rust_signum ((end_.y - start.y) / end_t)) (ratFloor start.y) start.y
        (recipX ((end_.y - start.y) / end_t)) end_t := rfl

theorem max_t0_of_z_eq (start end_ : Vec3) (end_t : ℚ) :
    (max_t0_of start end_ end_t).z =
      axis_init_max_t (rust_signum ((end_.z - start.z) / end_t)) (ratFloor start.z) start.z
        (recipX ((end_.z - start.z) / end_t)) end_t := rfl

/-- The time passed to the first visitor call is exactly the claimed minimum
first-crossing time. -/
theorem time0_of_eq_spec (start end_ : Vec3) (end_t : ℚ) (hT : 0 < end_t) :
    time0_of start end_ end_t = spec_first_time start end_ := by
  have hr : (0 : ℚ) < 1 / end_t := by positivity
  rw [time0_of, XRat.scaleBy_minX _ hr, XRat.scaleBy_minX _ hr, spec_first_time,
    max_t0_of_x_eq, max_t0_of_y_eq, max_t0_of_z_eq,
    axis_init_scaled _ _ _ hT, axis_init_scaled _ _ _ hT, axis_init_scaled _ _ _ hT]

/-- The initial traversal state satisfies the loop invariant. -/
theorem line_inv_init (start end_ : Vec3) (end_t : ℚ) (hT : 0 < end_t) :
    LineInv start end_ end_t (floor_vec start) (max_t0_of start end_ end_t) :=
  ⟨axis_init_inv start.x end_.x end_t hT, axis_init_inv start.y end_.y end_t hT,
   axis_init_inv start.z end_.z end_t hT⟩

end Traversal

namespace Traversal

/-- Nonnegative-or-infinite classification used for the first visit time. -/
def XRat.NN (x : XRat) : Prop := x = .inf ∨ ∃ q, x = .fin q ∧ 0 ≤ q

theorem XRat.NN.minX {a b : XRat} (ha : XRat.NN a) (hb : XRat.NN b) : XRat.NN (a.minX b) := by
  rcases ha with rfl | ⟨qa, rfl, hqa⟩
  · simpa [XRat.minX] using hb
  · rcases hb with rfl | ⟨qb, rfl, hqb⟩
    · exact Or.inr ⟨qa, rfl, hqa⟩
    · exact Or.inr ⟨min qa qb, rfl, le_min hqa hqb⟩

theorem axis_first_time_NN (sa ea : ℚ) : XRat.NN (axis_first_time sa ea) := by
  rw [axis_first_time]
  split_ifs with h1 h2
  · exact Or.inl rfl
  · refine Or.inr ⟨_, rfl, ?_⟩
    have hnum : 0 ≤ ((ratFloor sa : ℤ) : ℚ) + 1 - sa := by
      have := lt_ratFloor_add_one sa
      linarith
    exact div_nonneg hnum h2.le
  · refine Or.inr ⟨_, rfl, ?_⟩
    have hnum : ((ratFloor sa : ℤ) : ℚ) - sa ≤ 0 := by
      have := ratFloor_le sa
      linarith
    have hden : ea - sa < 0 := by
      rcases lt_trichotomy (ea - sa) 0 with h | h | h
      · exact h
      · exact absurd h h1
      · exact absurd h h2
    rw [← neg_div_neg_eq]
    exact div_nonneg (by linarith) (by linarith)

theorem axis_first_time_ne_inf {sa ea : ℚ} (h : ea - sa ≠ 0) :
    axis_first_time sa ea ≠ .inf := by
  rw [axis_first_time, if_neg h]
  split_ifs <;> simp

theorem XRat.minX_ne_inf_left {a b : XRat} (ha : a ≠ .inf) : a.minX b ≠ .inf := by
  cases a with
  | fin q => cases b <;> simp [XRat.minX]
  | inf => exact absurd rfl ha

theorem XRat.minX_ne_inf_right {a b : XRat} (hb : b ≠ .inf) : a.minX b ≠ .inf := by
  cases a with
  | fin q => cases b <;> simp [XRat.minX]
  | inf => simpa [XRat.minX] using hb

/-- Under the real-length hypotheses the first visit's time is a finite
nonnegative rational. -/
theorem spec_first_time_fin_nonneg (start end_ : Vec3) (end_t : ℚ) (hT : 0 < end_t)
    (hdot : end_t * end_t = (end_.sub start).dotSelf) :
    ∃ q, spec_first_time start end_ = .fin q ∧ 0 ≤ q := by
  have hnn : XRat.NN (spec_first_time start end_) :=
    (axis_first_time_NN start.x end_.x).minX
      ((axis_first_time_NN start.y end_.y).minX (axis_first_time_NN start.z end_.z))
  have hne : spec_first_time start end_ ≠ .inf := by
    by_cases hx : end_.x - start.x = 0
    · by_cases hy : end_.y - start.y = 0
      · by_cases hz : end_.z - start.z = 0
        · exact absurd (ray_zero_absurd start end_ end_t hT hdot hx hy hz) not_false
        · exact XRat.minX_ne_inf_right
            (XRat.minX_ne_inf_right (axis_first_time_ne_inf hz))
      · exact XRat.minX_ne_inf_right (XRat.minX_ne_inf_left (axis_first_time_ne_inf hy))
    · exact XRat.minX_ne_inf_left (axis_first_time_ne_inf hx)
  rcases hnn with h | h
  · exact absurd h hne
  · exact h

end Traversal

/-- Claim C3 counterexample: tracing from (0.5, 0.5, 0.5) to (2.5, 0.5, 0.5)
(ray length exactly 2, every `f32` operation exact), the very first visitor
call reports the start voxel and no face as claimed, but its time is 1/4 — the
distance to the first boundary crossing over the ray length — not 0. -/
theorem C3_counterexample_first_time_nonzero :
    (Traversal.voxel_line_traversal (fun _ _ _ => true) ⟨1/2, 1/2, 1/2⟩ ⟨5/2, 1/2, 1/2⟩ 2
        4).head? = some ⟨⟨0, 0, 0⟩, .fin (1/4), .None⟩ ∧
    ((1 : ℚ)/4) ≠ 0 ∧
    (2 : ℚ) * 2 = ((⟨5/2, 1/2, 1/2⟩ : Vec3).sub ⟨1/2, 1/2, 1/2⟩).dotSelf ∧ (0 : ℚ) < 2 := by
  refine ⟨?_, by norm_num, by norm_num [Vec3.sub, Vec3.dotSelf], by norm_num⟩
  have ht0 : Traversal.time0_of ⟨1/2, 1/2, 1/2⟩ ⟨5/2, 1/2, 1/2⟩ 2 = .fin (1/4) := by
    norm_num [Traversal.time0_of, Traversal.max_t0_of, Traversal.axis_init_max_t,
      Traversal.step_of, Traversal.r_ray_dir_of, Traversal.ray_dir_of, Traversal.ray_of,
      Vec3.sub, Vec3.divScalar, Traversal.recipX, Traversal.xmul, Traversal.rust_signum,
      Traversal.floor_vec, ratFloor, Traversal.XRat.minX, Traversal.XRat.scaleBy,
      Traversal.VOXEL_SIZE]
  rw [Traversal.voxel_line_traversal, ht0]
  norm_num [Traversal.floor_vec, ratFloor]

/-- Claim C3 as amended: for every start and end point (with `end_t` the true
positive ray length), the visitor is called first for the start point's voxel
with entry face `None`; the reported time on that first call is the normalized
time of the first voxel-boundary crossing (the minimum over the axes, zero only
when the start lies on a boundary crossed in step direction), not 0 in general. -/
theorem C3_amended_first_visit (vis : IVec3 → Traversal.XRat → VoxelFace → Bool)
    (start end_ : Vec3) (end_t : ℚ) (fuel : ℕ) (hT : 0 < end_t)
    (hdot : end_t * end_t = (end_.sub start).dotSelf) :
    (Traversal.voxel_line_traversal vis start end_ end_t fuel).head? =
      some ⟨Traversal.floor_vec start, Traversal.spec_first_time start end_, .None⟩ := by
  rw [Traversal.voxel_line_traversal, List.head?_cons,
    Traversal.time0_of_eq_spec start end_ end_t hT]

/-- Witness for C3 at the cardinal trace (0.25, 0.5, 0.5) → (0.75, 0.5, 0.5)
with ray length 1/2. -/
theorem C3_amended_first_visit_witness :
    ((0 : ℚ) < 1/2 ∧
      (1/2 : ℚ) * (1/2) = ((⟨3/4, 1/2, 1/2⟩ : Vec3).sub ⟨1/4, 1/2, 1/2⟩).dotSelf) ∧
    (Traversal.voxel_line_traversal (fun _ _ _ => true) ⟨1/4, 1/2, 1/2⟩ ⟨3/4, 1/2, 1/2⟩
        (1/2) 4).head? =
      some ⟨Traversal.floor_vec ⟨1/4, 1/2, 1/2⟩,
        Traversal.spec_first_time ⟨1/4, 1/2, 1/2⟩ ⟨3/4, 1/2, 1/2⟩, .None⟩ :=
  ⟨⟨by norm_num, by norm_num [Vec3.sub, Vec3.dotSelf]⟩,
   C3_amended_first_visit (fun _ _ _ => true) ⟨1/4, 1/2, 1/2⟩ ⟨3/4, 1/2, 1/2⟩ (1/2) 4
     (by norm_num) (by norm_num [Vec3.sub, Vec3.dotSelf])⟩

/-- Claim C6 counterexample: tracing from (0.25, 0.5, 0.5) to (0.75, 0.5, 0.5)
(ray length exactly 1/2, zero y and z ray components, every `f32` operation
exact), the zero axes are guarded and no division blows up, but the single
visitor call reports time 3/2, violating the claimed bound `t ≤ 1`: the first
call's time is the distance to the nearest boundary over the ray length, which
exceeds 1 whenever start and end share a voxel. -/
theorem C6_counterexample_first_time_exceeds_one :
    ((⟨3/4, 1/2, 1/2⟩ : Vec3).sub ⟨1/4, 1/2, 1/2⟩).y = 0 ∧
    ((0 : ℚ) < 1/2 ∧
      (1/2 : ℚ) * (1/2) = ((⟨3/4, 1/2, 1/2⟩ : Vec3).sub ⟨1/4, 1/2, 1/2⟩).dotSelf) ∧
    Traversal.voxel_line_traversal (fun _ _ _ => true) ⟨1/4, 1/2, 1/2⟩ ⟨3/4, 1/2, 1/2⟩
        (1/2) 4 = [⟨⟨0, 0, 0⟩, .fin (3/2), .None⟩] ∧
    ¬ ((3/2 : ℚ) ≤ 1) := by
  refine ⟨by norm_num [Vec3.sub], ⟨by norm_num, by norm_num [Vec3.sub, Vec3.dotSelf]⟩,
    ?_, by norm_num⟩
  have ht0 : Traversal.time0_of ⟨1/4, 1/2, 1/2⟩ ⟨3/4, 1/2, 1/2⟩ (1/2) = .fin (3/2) := by
    norm_num [Traversal.time0_of, Traversal.max_t0_of, Traversal.axis_init_max_t,
      Traversal.step_of, Traversal.r_ray_dir_of, Traversal.ray_dir_of, Traversal.ray_of,
      Vec3.sub, Vec3.divScalar, Traversal.recipX, Traversal.xmul, Traversal.rust_signum,
      Traversal.floor_vec, ratFloor, Traversal.XRat.minX, Traversal.XRat.scaleBy,
      Traversal.VOXEL_SIZE]
  rw [Traversal.voxel_line_traversal, ht0]
  norm_num [Traversal.floor_vec, ratFloor]

/-- Claim C6 as amended: for every trace (with `end_t` the true positive ray
length), each axis with a zero ray component is guarded — the traversal never
steps along it, so every reported voxel keeps the start voxel's coordinate on
that axis — and every reported time is a finite rational (never NaN or
infinite) that is nonnegative; every time after the first call also satisfies
`t ≤ 1`, while the first call's time can exceed 1 (when start and end share a
voxel). -/
theorem C6_amended_zero_axis_guard (vis : IVec3 → Traversal.XRat → VoxelFace → Bool)
    (start end_ : Vec3) (end_t : ℚ) (fuel : ℕ) (hT : 0 < end_t)
    (hdot : end_t * end_t = (end_.sub start).dotSelf)
    (hzero : end_.x - start.x = 0 ∨ end_.y - start.y = 0 ∨ end_.z - start.z = 0) :
    (∀ v ∈ Traversal.voxel_line_traversal vis start end_ end_t fuel,
        (end_.x - start.x = 0 → v.voxel.x = ratFloor start.x) ∧
        (end_.y - start.y = 0 → v.voxel.y = ratFloor start.y) ∧
        (end_.z - start.z = 0 → v.voxel.z = ratFloor start.z)) ∧
    (∀ v ∈ Traversal.voxel_line_traversal vis start end_ end_t fuel,
        ∃ q, v.time = .fin q ∧ 0 ≤ q) ∧
    (∀ v ∈ (Traversal.voxel_line_traversal vis start end_ end_t fuel).tail,
        ∃ q, v.time = .fin q ∧ 0 ≤ q ∧ q ≤ 1) := by
  clear hzero
  have hloop := Traversal.voxel_line_loop_sound start end_ end_t vis
    (Traversal.x_face_of start end_ end_t) (Traversal.y_face_of start end_ end_t)
    (Traversal.z_face_of start end_ end_t) hT hdot fuel (Traversal.floor_vec start)
    (Traversal.max_t0_of start end_ end_t) (Traversal.line_inv_init start end_ end_t hT)
  obtain ⟨q0, hq0, hq0n⟩ := Traversal.spec_first_time_fin_nonneg start end_ end_t hT hdot
  have htime0 : Traversal.time0_of start end_ end_t = .fin q0 := by
    rw [Traversal.time0_of_eq_spec start end_ end_t hT, hq0]
  refine ⟨?_, ?_, ?_⟩
  · intro v hv
    rw [Traversal.voxel_line_traversal] at hv
    rcases List.mem_cons.mp hv with rfl | hv2
    · exact ⟨fun _ => rfl, fun _ => rfl, fun _ => rfl⟩
    · split_ifs at hv2 with hc
      · exact (hloop v hv2).2
      · cases hv2
  · intro v hv
    rw [Traversal.voxel_line_traversal] at hv
    rcases List.mem_cons.mp hv with rfl | hv2
    · exact ⟨q0, htime0, hq0n⟩
    · split_ifs at hv2 with hc
      · obtain ⟨q, hq, hn, _⟩ := (hloop v hv2).1
        exact ⟨q, hq, hn⟩
      · cases hv2
  · intro v hv
    rw [Traversal.voxel_line_traversal, List.tail_cons] at hv
    split_ifs at hv with hc
    · exact (hloop v hv).1
    · cases hv

/-- Witness for C6 at the trace (0.5, 0.5, 0.5) → (2.5, 0.5, 0.5) with ray
length 2 (zero y and z components). -/
theorem C6_amended_zero_axis_guard_witness :
    ((0 : ℚ) < 2 ∧
      (2 : ℚ) * 2 = ((⟨5/2, 1/2, 1/2⟩ : Vec3).sub ⟨1/2, 1/2, 1/2⟩).dotSelf ∧
      ((⟨5/2, 1/2, 1/2⟩ : Vec3).y - (⟨1/2, 1/2, 1/2⟩ : Vec3).y = 0)) ∧
    (∀ v ∈ Traversal.voxel_line_traversal (fun _ _ _ => true) ⟨1/2, 1/2, 1/2⟩
        ⟨5/2, 1/2, 1/2⟩ 2 4,
        ∃ q, v.time = .fin q ∧ 0 ≤ q) :=
  ⟨⟨by norm_num, by norm_num [Vec3.sub, Vec3.dotSelf], by norm_num⟩,
   (C6_amended_zero_axis_guard (fun _ _ _ => true) ⟨1/2, 1/2, 1/2⟩ ⟨5/2, 1/2, 1/2⟩ 2 4
     (by norm_num) (by norm_num [Vec3.sub, Vec3.dotSelf])
     (Or.inr (Or.inl (by norm_num)))).2.1⟩

namespace Traversal

theorem tdiv_abs_self_eq_sign {a : ℤ} (h : a ≠ 0) : Int.tdiv a |a| = Int.sign a := by
  nth_rewrite 1 [← Int.sign_mul_abs a]
  exact Int.mul_tdiv_cancel _ (by simpa using h)

theorem voxel_cartesian_traversal_eq (vis : IVec3 → Bool) (start end_ : IVec3) :
    voxel_cartesian_traversal vis start end_ =
      voxel_cartesian_loop vis start
        ⟨Int.tdiv (end_.sub start).x
            (max |(end_.sub start).x| (max |(end_.sub start).y| |(end_.sub start).z|)),
         Int.tdiv (end_.sub start).y
            (max |(end_.sub start).x| (max |(end_.sub start).y| |(end_.sub start).z|)),
         Int.tdiv (end_.sub start).z
            (max |(end_.sub start).x| (max |(end_.sub start).y| |(end_.sub start).z|))⟩
        0 (max |(end_.sub start).x| (max |(end_.sub start).y| |(end_.sub start).z|)).toNat :=
  rfl

theorem claim_path_eq (start end_ : IVec3) :
    claim_path start end_ =
      (List.range
          (max |(end_.sub start).x| (max |(end_.sub start).y| |(end_.sub start).z|)).toNat).map
        (fun k =>
          ⟨start.x + (unit_dir (end_.sub start)).x * (k : ℤ),
           start.y + (unit_dir (end_.sub start)).y * (k : ℤ),
           start.z + (unit_dir (end_.sub start)).z * (k : ℤ)⟩) :=
  rfl

end Traversal

/-- Claim C10: for endpoints whose difference has exactly one non-zero
component, `voxel_cartesian_traversal` visits exactly the voxels
`start + k * unit_dir` for `k = 0, …, distance - 1` — start included, end
excluded, in order — cut at the first visitor rejection; `voxel_line_traversal`
by contrast includes the end voxel (shown on the corresponding cardinal
trace). -/
theorem C10_cartesian_traversal_path (vis : IVec3 → Bool) (start end_ : IVec3)
    (h : Traversal.exactly_one_axis (end_.sub start)) :
    Traversal.voxel_cartesian_traversal vis start end_ =
      Traversal.take_until_stop vis (Traversal.claim_path start end_) ∧
    end_ ∉ Traversal.claim_path start end_ ∧
    (Traversal.claim_path start end_).head? = some start ∧
    (Traversal.floor_vec ⟨5/2, 1/2, 1/2⟩ ∈
        (Traversal.voxel_line_traversal (fun _ _ _ => true) ⟨1/2, 1/2, 1/2⟩
          ⟨5/2, 1/2, 1/2⟩ 2 4).map Traversal.Visit.voxel ∧
      Traversal.voxel_cartesian_traversal (fun _ => true) ⟨0, 0, 0⟩ ⟨2, 0, 0⟩ =
        [⟨0, 0, 0⟩, ⟨1, 0, 0⟩]) := by
  refine ⟨?_, ?_, ?_, ?_, by decide⟩
  · rw [Traversal.voxel_cartesian_traversal_eq, Traversal.voxel_cartesian_loop_eq,
      Traversal.claim_path_eq]
    congr 1
    apply List.map_congr_left
    intro k _
    have hdir :
        (⟨Int.tdiv (end_.sub start).x
              (max |(end_.sub start).x| (max |(end_.sub start).y| |(end_.sub start).z|)),
          Int.tdiv (end_.sub start).y
              (max |(end_.sub start).x| (max |(end_.sub start).y| |(end_.sub start).z|)),
          Int.tdiv (end_.sub start).z
              (max |(end_.sub start).x| (max |(end_.sub start).y| |(end_.sub start).z|))⟩ :
          IVec3) = Traversal.unit_dir (end_.sub start) := by
      rcases h with ⟨hx, hy, hz⟩ | ⟨hx, hy, hz⟩ | ⟨hx, hy, hz⟩
      · have hM : max |(end_.sub start).x| (max |(end_.sub start).y| |(end_.sub start).z|) =
            |(end_.sub start).x| := by
          rw [hy, hz]; simp
        rw [Traversal.unit_dir, hM, hy, hz]
        simp [Int.zero_tdiv, Traversal.tdiv_abs_self_eq_sign hx]
      · have hM : max |(end_.sub start).x| (max |(end_.sub start).y| |(end_.sub start).z|) =
            |(end_.sub start).y| := by
          rw [hx, hz]; simp
        rw [Traversal.unit_dir, hM, hx, hz]
        simp [Int.zero_tdiv, Traversal.tdiv_abs_self_eq_sign hy]
      · have hM : max |(end_.sub start).x| (max |(end_.sub start).y| |(end_.sub start).z|) =
            |(end_.sub start).z| := by
          rw [hx, hy]; simp
        rw [Traversal.unit_dir, hM, hx, hy]
        simp [Int.zero_tdiv, Traversal.tdiv_abs_self_eq_sign hz]
    rw [hdir]
    simp
  · intro hmem
    rw [Traversal.claim_path_eq] at hmem
    obtain ⟨k, hk, heq⟩ := List.mem_map.mp hmem
    have hkr := List.mem_range.mp hk
    rcases h with ⟨hx, hy, hz⟩ | ⟨hx, hy, hz⟩ | ⟨hx, hy, hz⟩
    · have hM : max |(end_.sub start).x| (max |(end_.sub start).y| |(end_.sub start).z|) =
          |(end_.sub start).x| := by
        rw [hy, hz]; simp
      rw [hM] at hkr
      have hcx := congrArg IVec3.x heq
      simp only [Traversal.unit_dir] at hcx
      have hdx : (end_.sub start).x = end_.x - start.x := rfl
      have hs : Int.sign (end_.sub start).x ≠ 0 := by
        simpa [Int.sign_eq_zero_iff_zero] using hx
      have hmul : Int.sign (end_.sub start).x * (k : ℤ) =
          Int.sign (end_.sub start).x * |(end_.sub start).x| := by
        rw [Int.sign_mul_abs]
        omega
      have hkabs : (k : ℤ) = |(end_.sub start).x| := mul_left_cancel₀ hs hmul
      omega
    · have hM : max |(end_.sub start).x| (max |(end_.sub start).y| |(end_.sub start).z|) =
          |(end_.sub start).y| := by
        rw [hx, hz]; simp
      rw [hM] at hkr
      have hcy := congrArg IVec3.y heq
      simp only [Traversal.unit_dir] at hcy
      have hdy : (end_.sub start).y = end_.y - start.y := rfl
      have hs : Int.sign (end_.sub start).y ≠ 0 := by
        simpa [Int.sign_eq_zero_iff_zero] using hy
      have hmul : Int.sign (end_.sub start).y * (k : ℤ) =
          Int.sign (end_.sub start).y * |(end_.sub start).y| := by
        rw [Int.sign_mul_abs]
        omega
      have hkabs : (k : ℤ) = |(end_.sub start).y| := mul_left_cancel₀ hs hmul
      omega
    · have hM : max |(end_.sub start).x| (max |(end_.sub start).y| |(end_.sub start).z|) =
          |(end_.sub start).z| := by
        rw [hx, hy]; simp
      rw [hM] at hkr
      have hcz := congrArg IVec3.z heq
      simp only [Traversal.unit_dir] at hcz
      have hdz : (end_.sub start).z = end_.z - start.z := rfl
      have hs : Int.sign (end_.sub start).z ≠ 0 := by
        simpa [Int.sign_eq_zero_iff_zero] using hz
      have hmul : Int.sign (end_.sub start).z * (k : ℤ) =
          Int.sign (end_.sub start).z * |(end_.sub start).z| := by
        rw [Int.sign_mul_abs]
        omega
      have hkabs : (k : ℤ) = |(end_.sub start).z| := mul_left_cancel₀ hs hmul
      omega
  · rw [Traversal.claim_path_eq]
    have hpos : 0 <
        (max |(end_.sub start).x| (max |(end_.sub start).y| |(end_.sub start).z|)).toNat := by
      have hmx : (0 : ℤ) <
          max |(end_.sub start).x| (max |(end_.sub start).y| |(end_.sub start).z|) := by
        rcases h with ⟨hx, -, -⟩ | ⟨-, hy, -⟩ | ⟨-, -, hz⟩
        · exact lt_of_lt_of_le (abs_pos.mpr hx) (le_max_left _ _)
        · exact lt_of_lt_of_le (abs_pos.mpr hy)
            (le_trans (le_max_left _ _) (le_max_right _ _))
        · exact lt_of_lt_of_le (abs_pos.mpr hz)
            (le_trans (le_max_right _ _) (le_max_right _ _))
      omega
    obtain ⟨m, hm⟩ := Nat.exists_eq_succ_of_ne_zero hpos.ne'
    rw [hm, List.range_succ_eq_map, List.map_cons, List.head?_cons]
    simp
  · have ht0 : Traversal.time0_of ⟨1/2, 1/2, 1/2⟩ ⟨5/2, 1/2, 1/2⟩ 2 = .fin (1/4) := by
      norm_num [Traversal.time0_of, Traversal.max_t0_of, Traversal.axis_init_max_t,
        Traversal.step_of, Traversal.r_ray_dir_of, Traversal.ray_dir_of, Traversal.ray_of,
        Vec3.sub, Vec3.divScalar, Traversal.recipX, Traversal.xmul, Traversal.rust_signum,
        Traversal.floor_vec, ratFloor, Traversal.XRat.minX, Traversal.XRat.scaleBy,
        Traversal.VOXEL_SIZE]
    have hst : Traversal.step_of ⟨1/2, 1/2, 1/2⟩ ⟨5/2, 1/2, 1/2⟩ 2 = ⟨1, 1, 1⟩ := by
      norm_num [Traversal.step_of, Traversal.ray_dir_of, Traversal.ray_of, Vec3.sub,
        Vec3.divScalar, Traversal.rust_signum]
    have hoob : Traversal.oob_of ⟨1/2, 1/2, 1/2⟩ ⟨5/2, 1/2, 1/2⟩ 2 = ⟨3, 1, 1⟩ := by
      norm_num [Traversal.oob_of, hst, Traversal.floor_vec, ratFloor, IVec3.add]
    have hdt : Traversal.delta_t_of ⟨1/2, 1/2, 1/2⟩ ⟨5/2, 1/2, 1/2⟩ 2 =
        ⟨.fin 1, .inf, .inf⟩ := by
      norm_num [Traversal.delta_t_of, Traversal.r_ray_dir_of, Traversal.ray_dir_of,
        Traversal.ray_of, Vec3.sub, Vec3.divScalar, Traversal.recipX, Traversal.xmul,
        Traversal.XRat.absX, Traversal.VOXEL_SIZE]
    have hmt : Traversal.max_t0_of ⟨1/2, 1/2, 1/2⟩ ⟨5/2, 1/2, 1/2⟩ 2 =
        ⟨.fin (1/2), .inf, .inf⟩ := by
      norm_num [Traversal.max_t0_of, Traversal.axis_init_max_t, Traversal.step_of,
        Traversal.r_ray_dir_of, Traversal.ray_dir_of, Traversal.ray_of, Vec3.sub,
        Vec3.divScalar, Traversal.recipX, Traversal.xmul, Traversal.rust_signum,
        Traversal.floor_vec, ratFloor, Traversal.VOXEL_SIZE]
    have hxf : Traversal.x_face_of ⟨1/2, 1/2, 1/2⟩ ⟨5/2, 1/2, 1/2⟩ 2 = .Left := by
      norm_num [Traversal.x_face_of, hst]
    have hyf : Traversal.y_face_of ⟨1/2, 1/2, 1/2⟩ ⟨5/2, 1/2, 1/2⟩ 2 = .Bottom := by
      norm_num [Traversal.y_face_of, hst]
    have hzf : Traversal.z_face_of ⟨1/2, 1/2, 1/2⟩ ⟨5/2, 1/2, 1/2⟩ 2 = .Back := by
      norm_num [Traversal.z_face_of, hst]
    have hfs : Traversal.floor_vec (⟨1/2, 1/2, 1/2⟩ : Vec3) = ⟨0, 0, 0⟩ := by
      norm_num [Traversal.floor_vec, ratFloor]
    have hfe : Traversal.floor_vec (⟨5/2, 1/2, 1/2⟩ : Vec3) = ⟨2, 0, 0⟩ := by
      norm_num [Traversal.floor_vec, ratFloor]
    have hloop : Traversal.voxel_line_loop (fun _ _ _ => true) ⟨1, 1, 1⟩ ⟨3, 1, 1⟩
        ⟨.fin 1, .inf, .inf⟩ (1/2) .Left .Bottom .Back 4 ⟨0, 0, 0⟩
        ⟨.fin (1/2), .inf, .inf⟩ =
        [⟨⟨1, 0, 0⟩, .fin (1/4), .Left⟩, ⟨⟨2, 0, 0⟩, .fin (3/4), .Left⟩] := by
      norm_num [Traversal.voxel_line_loop, Traversal.voxel_line_step, Traversal.XRat.blt,
        Traversal.XRat.add, Traversal.XRat.scaleBy]
    rw [hfe, Traversal.voxel_line_traversal, ht0, hst, hoob, hdt, hmt, hxf, hyf, hzf, hfs]
    norm_num [hloop, hfe]

/-- Witness for C10 at the trace (0,0,0) → (2,0,0). -/
theorem C10_cartesian_traversal_path_witness :
    Traversal.exactly_one_axis ((⟨2, 0, 0⟩ : IVec3).sub ⟨0, 0, 0⟩) ∧
    (⟨2, 0, 0⟩ : IVec3) ∉ Traversal.claim_path ⟨0, 0, 0⟩ ⟨2, 0, 0⟩ :=
  ⟨Or.inl ⟨by decide, by decide, by decide⟩,
   (C10_cartesian_traversal_path (fun _ => true) ⟨0, 0, 0⟩ ⟨2, 0, 0⟩
     (Or.inl ⟨by decide, by decide, by decide⟩)).2.1⟩
